import Mathlib

/-!
# Step-definition invocation (`internal/models/stepdef.go`)

A shallow embedding of `StepDefinition.Run` and `shouldBeString`, together with the
parts of `strconv`, `reflect` and `messages-go` that decide their behaviour, followed by
the theorems that settle the specification claims about them.

Conventions of the embedding:

* a Go `string` is its byte sequence (`GoString`), a byte is a `Fin 256`;
* a Go pointer to a payload is an `Option` of the payload (`none` is the nil pointer),
  so pointer identity is collapsed to equality of contents;
* machine integers are `Nat` / `Int` with explicit reduction modulo `2 ^ w`;
* floating point is not embedded: `strconv.ParseFloat` and the `float32` conversion are
  fields of the environment `Env`;
* `fmt.Errorf` is kept symbolic: an error records the format string, the sentinel given
  for `%w` and the remaining operands in order.
-/

namespace Godog

/-! ## Strings -/

/-- A byte of a Go string. -/
abbrev Byte := Fin 256

/-- A Go `string`: an immutable sequence of bytes. -/
abbrev GoString := List Byte

/-! ## `reflect`: kinds and types -/

/-- The enumeration `reflect.Kind`. -/
inductive Kind
  | Invalid | Bool | Int | Int8 | Int16 | Int32 | Int64
  | Uint | Uint8 | Uint16 | Uint32 | Uint64 | Uintptr
  | Float32 | Float64 | Complex64 | Complex128
  | Array | Chan | Func | Interface | Map | Ptr | Slice | String | Struct | UnsafePointer
  deriving DecidableEq, Repr

/-- A Go type as `reflect.Type` observes it. `basic k` is the predeclared type of a basic
kind (`int`, `uint8`, `string`, ...); `named` is a defined type, identified by its package
path and name, that renders with its package name; the other constructors are unnamed
type literals. -/
inductive GoType
  | basic (k : Kind)
  | named (pkgPath pkgName name : String) (underlying : GoType)
  | ptr (elem : GoType)
  | slice (elem : GoType)
  | map (key elem : GoType)
  | iface
  | struct
  deriving DecidableEq, Repr

/-- The method `reflect.Type.Kind`: the kind of the underlying type. -/
def GoType.kind : GoType → Kind
  | .basic k => k
  | .named _ _ _ u => u.kind
  | .ptr _ => .Ptr
  | .slice _ => .Slice
  | .map _ _ => .Map
  | .iface => .Interface
  | .struct => .Struct

/-- The name under which `reflect` renders a predeclared basic type. -/
def kindName : Kind → String
  | .Invalid => "invalid" | .Bool => "bool" | .Int => "int" | .Int8 => "int8"
  | .Int16 => "int16" | .Int32 => "int32" | .Int64 => "int64" | .Uint => "uint"
  | .Uint8 => "uint8" | .Uint16 => "uint16" | .Uint32 => "uint32" | .Uint64 => "uint64"
  | .Uintptr => "uintptr" | .Float32 => "float32" | .Float64 => "float64"
  | .Complex64 => "complex64" | .Complex128 => "complex128" | .Array => "array"
  | .Chan => "chan" | .Func => "func" | .Interface => "interface" | .Map => "map"
  | .Ptr => "ptr" | .Slice => "slice" | .String => "string" | .Struct => "struct"
  | .UnsafePointer => "unsafe.Pointer"

/-- The method `reflect.Type.String`: a defined type renders as `pkgName.Name`, with the
package name and not the import path, so the rendering does not identify the type. -/
def GoType.typeString : GoType → String
  | .basic k => kindName k
  | .named _ pkgName name _ => pkgName ++ "." ++ name
  | .ptr e => "*" ++ e.typeString
  | .slice e => "[]" ++ e.typeString
  | .map k e => "map[" ++ k.typeString ++ "]" ++ e.typeString
  | .iface => "interface {}"
  | .struct => "struct {}"

/-- The underlying type: a defined type is resolved to the literal it was declared with. -/
def GoType.underlying : GoType → GoType
  | .named _ _ _ u => u.underlying
  | t => t

/-- The method `reflect.Type.Elem` on a type of kind `Ptr` (or `Slice`, `Map`): the
element type, looked up through a defined type. On any other type `Elem` panics; `Run`
calls it under `case reflect.Ptr` only, and the embedding returns the type itself there. -/
def GoType.Elem : GoType → GoType
  | .named _ _ _ u => u.Elem
  | .ptr e => e
  | .slice e => e
  | .map _ e => e
  | t => t

/-- Whether the type has a name: the predeclared types and the defined types. -/
def GoType.hasName : GoType → Bool
  | .basic _ => true
  | .named _ _ _ _ => true
  | _ => false

/-- The rule `directlyAssignable` that `reflect.Value.Call` applies to each argument:
a value of type `V` may be passed for a parameter of type `T` when the types are
identical, or when at most one of them has a name and the underlying types are
identical. -/
def directlyAssignable (T V : GoType) : Bool :=
  if T = V then true
  else if (T.hasName && V.hasName) || T.kind ≠ V.kind then false
  else decide (T.underlying = V.underlying)

/-- The variable `typeOfBytes`: `reflect.TypeOf([]byte(nil))`. -/
def typeOfBytes : GoType := .slice (.basic .Uint8)

/-! ## `messages-go`: the step-argument payloads -/

/-- The message `PickleStepArgument_PickleDocString`. -/
structure PickleDocString where
  MediaType : GoString
  Content : GoString
  deriving DecidableEq, Repr

/-- A cell of a table payload. -/
structure PickleTableCell where
  Value : GoString
  deriving DecidableEq, Repr

/-- A row of a table payload. -/
structure PickleTableRow where
  Cells : List PickleTableCell
  deriving DecidableEq, Repr

/-- The message `PickleStepArgument_PickleTable`. -/
structure PickleTable where
  Rows : List PickleTableRow
  deriving DecidableEq, Repr

/-- The oneof field `Message` of `PickleStepArgument`: unset, or one of the two member
wrappers `PickleStepArgument_DocString` and `PickleStepArgument_DataTable`, each holding
a pointer to its payload. -/
inductive StepArgumentMessage
  | unset
  | DocString (DocString : Option PickleDocString)
  | DataTable (DataTable : Option PickleTable)
  deriving DecidableEq, Repr

/-- The message `PickleStepArgument`, the generic wrapper of a multi-line argument. -/
structure PickleStepArgument where
  Message : StepArgumentMessage
  deriving DecidableEq, Repr

/-- The generated accessor `(*PickleStepArgument).GetMessage`, nil receiver included. -/
def GetMessage (m : Option PickleStepArgument) : StepArgumentMessage :=
  match m with
  | some x => x.Message
  | none => .unset

/-- The generated accessor `(*PickleStepArgument).GetDocString`: the document payload
when the oneof holds one, the nil pointer otherwise. -/
def GetDocString (m : Option PickleStepArgument) : Option PickleDocString :=
  match GetMessage m with
  | .DocString x => x
  | _ => none

/-- The generated accessor `(*PickleStepArgument).GetDataTable`: the table payload when
the oneof holds one, the nil pointer otherwise. -/
def GetDataTable (m : Option PickleStepArgument) : Option PickleTable :=
  match GetMessage m with
  | .DataTable x => x
  | _ => none

/-- The Go type `messages.PickleStepArgument_PickleDocString`. -/
def docStringType : GoType :=
  .named "github.com/cucumber/messages-go/v10" "messages"
    "PickleStepArgument_PickleDocString" .struct

/-- The Go type `messages.PickleStepArgument_PickleTable`. -/
def tableType : GoType :=
  .named "github.com/cucumber/messages-go/v10" "messages"
    "PickleStepArgument_PickleTable" .struct

/-! ## Raw arguments, coerced values, errors -/

/-- An element of `Args []interface{}`, by dynamic type: the nil interface, a `string`,
a `*messages.PickleStepArgument`, a `*messages.PickleStepArgument_PickleDocString`,
a `*messages.PickleStepArgument_PickleTable`, or a value of any other dynamic type
(of which only the type name is kept). -/
inductive RawArgument
  | nil
  | string (s : GoString)
  | stepArgument (p : Option PickleStepArgument)
  | docString (p : Option PickleDocString)
  | table (p : Option PickleTable)
  | other (dynType : String)
  deriving DecidableEq, Repr

/-- Bit pattern of a floating-point number; its arithmetic is not embedded. -/
abbrev GoFloat := Nat

/-- A `reflect.Value` that `Run` builds for the handler call. -/
inductive Value
  | int (v : Int)
  | int64 (v : Int)
  | int32 (v : Int)
  | int16 (v : Int)
  | int8 (v : Int)
  | string (s : GoString)
  | float64 (f : GoFloat)
  | float32 (f : GoFloat)
  | docString (p : Option PickleDocString)
  | table (p : Option PickleTable)
  | bytes (b : List Byte)
  deriving DecidableEq, Repr

/-- The static type with which each value is built (`reflect.ValueOf(int(v))` has type
`int`, `reflect.ValueOf(v.GetDocString())` has the pointer type, and so on). -/
def Value.typeOf : Value → GoType
  | .int _ => .basic .Int
  | .int64 _ => .basic .Int64
  | .int32 _ => .basic .Int32
  | .int16 _ => .basic .Int16
  | .int8 _ => .basic .Int8
  | .string _ => .basic .String
  | .float64 _ => .basic .Float64
  | .float32 _ => .basic .Float32
  | .docString _ => .ptr docStringType
  | .table _ => .ptr tableType
  | .bytes _ => typeOfBytes

/-- The cause recorded in a `strconv.NumError`. -/
inductive NumErrCause
  | ErrSyntax
  | ErrRange
  | invalidBitSize (bitSize : Nat)
  deriving DecidableEq, Repr

/-- The error type `strconv.NumError`. -/
structure NumError where
  Func : String
  Num : GoString
  Err : NumErrCause
  deriving DecidableEq, Repr

/-- An error value made by `errors.New`: a pointer to a fresh `errorString`. Two such
values are the same error when they are the same pointer, so the value carries the
address it was allocated at next to its text. Any error of this shape can be given to
`fmt.Errorf` for `%w`, those of other packages included. -/
structure ErrorValue where
  addr : Nat
  text : String
  deriving DecidableEq, Repr

/-- The function `errors.New`: it allocates at the next free address, so every call
returns a distinct value even for an identical text. -/
def errorsNew (next : Nat) (text : String) : ErrorValue × Nat := (⟨next, text⟩, next + 1)

/-- The block `var ( ... )` of matchable errors, initialised in source order. -/
def matchableErrors : ErrorValue × ErrorValue × ErrorValue :=
  let r1 := errorsNew 0 "func received more arguments than expected"
  let r2 := errorsNew r1.2 "cannot convert argument"
  let r3 := errorsNew r2.2 "unsupported argument type"
  (r1.1, r2.1, r3.1)

/-- The variable `ErrUnmatchedStepArgumentNumber`. -/
def ErrorValue.ErrUnmatchedStepArgumentNumber : ErrorValue := matchableErrors.1

/-- The variable `ErrCannotConvert`. -/
def ErrorValue.ErrCannotConvert : ErrorValue := matchableErrors.2.1

/-- The variable `ErrUnsupportedArgumentType`. -/
def ErrorValue.ErrUnsupportedArgumentType : ErrorValue := matchableErrors.2.2

/-- An operand of `fmt.Errorf` after the `%w` one. -/
inductive FmtArg
  | int (n : Nat)
  | text (s : GoString)
  | str (s : String)
  | arg (a : RawArgument)
  | numErr (e : NumError)
  | kind (k : Kind)
  deriving DecidableEq, Repr

/-- An error built by `fmt.Errorf(format, err, operands...)` with `%w` for `err`:
`wrapped` is the error value given for `%w`, which `Unwrap` returns. -/
structure GoError where
  format : String
  wrapped : ErrorValue
  operands : List FmtArg
  deriving DecidableEq, Repr

/-! ## `strconv`: parsing a signed decimal integer -/

/-- The platform and the floating-point routines that the embedding takes as given:
`is64` tells whether `int` has 64 bits; `ParseFloat s bitSize` is `strconv.ParseFloat`;
`toFloat32` is the conversion `float32(v)`. -/
structure Env where
  is64 : Bool
  ParseFloat : GoString → Nat → GoFloat × Option NumError
  toFloat32 : GoFloat → GoFloat

/-- The constant `strconv.IntSize`: the size in bits of an `int`. -/
def IntSize (env : Env) : Nat := if env.is64 then 64 else 32

/-- The constant `maxUint64`. -/
def maxUint64 : Nat := 2 ^ 64 - 1

/-- The helper `syntaxError` of `strconv`. -/
def syntaxError (fn : String) (str : GoString) : NumError := ⟨fn, str, .ErrSyntax⟩

/-- The helper `rangeError` of `strconv`. -/
def rangeError (fn : String) (str : GoString) : NumError := ⟨fn, str, .ErrRange⟩

/-- The helper `bitSizeError` of `strconv`. -/
def bitSizeError (fn : String) (str : GoString) (bitSize : Nat) : NumError :=
  ⟨fn, str, .invalidBitSize bitSize⟩

/-- The helper `lower` of `strconv`: `c | ('x' - 'X')`. -/
def lower (c : Byte) : Nat := c.val ||| 0x20

/-- The digit that the loop of `ParseUint` reads from a byte: `c - '0'` for a decimal
digit, `lower(c) - 'a' + 10` for a letter, nothing for any other byte (the underscore is
a digit separator only when the base argument is 0, which `Run` never passes). -/
def digitOf (c : Byte) : Option Nat :=
  if 48 ≤ c.val ∧ c.val ≤ 57 then some (c.val - 48)
  else if 97 ≤ lower c ∧ lower c ≤ 122 then some (lower c - 97 + 10)
  else none

/-- The loop of `strconv.ParseUint` for base 10 over the bytes still to read, with the
accumulator `n` in `uint64` arithmetic; `s0` is the whole input, kept for the error. -/
def parseUintLoop (s0 : GoString) (maxVal : Nat) : List Byte → Nat → Nat × Option NumError
  | [], n => (n, none)
  | c :: cs, n =>
    match digitOf c with
    | none => (0, some (syntaxError "ParseUint" s0))
    | some d =>
      if d ≥ 10 then (0, some (syntaxError "ParseUint" s0))
      else if n ≥ maxUint64 / 10 + 1 then (maxVal, some (rangeError "ParseUint" s0))
      else
        let n10 := n * 10 % 2 ^ 64
        let n1 := (n10 + d) % 2 ^ 64
        if n1 < n10 ∨ n1 > maxVal then (maxVal, some (rangeError "ParseUint" s0))
        else parseUintLoop s0 maxVal cs n1

/-- The function `strconv.ParseUint(s, 10, bitSize)`: the value and the error, as Go
returns both. -/
def ParseUint (env : Env) (s : GoString) (bitSize : Nat) : Nat × Option NumError :=
  if s = [] then (0, some (syntaxError "ParseUint" s))
  else if bitSize ≠ 0 ∧ bitSize > 64 then (0, some (bitSizeError "ParseUint" s bitSize))
  else
    let bitSize := if bitSize = 0 then IntSize env else bitSize
    let maxVal := (2 ^ bitSize % 2 ^ 64 + 2 ^ 64 - 1) % 2 ^ 64
    parseUintLoop s maxVal s 0

/-- Reduction of an integer to the signed range of width `w` (two's complement), the
effect of the conversions `int8(v)`, ..., `int64(v)`. -/
def wrapInt (w : Nat) (v : Int) : Int := (v + 2 ^ (w - 1)) % 2 ^ w - 2 ^ (w - 1)

/-- The function `strconv.ParseInt(s, 10, bitSize)`: the value and the error, as Go
returns both. -/
def ParseInt (env : Env) (s : GoString) (bitSize : Nat) : Int × Option NumError :=
  match s with
  | [] => (0, some (syntaxError "ParseInt" s))
  | c :: rest =>
    let s0 := s
    let neg : Bool := decide (c.val = 45)
    let s1 := if c.val = 43 then rest else if c.val = 45 then rest else s
    let (un, err) := ParseUint env s1 bitSize
    match (match err with
           | some e => if e.Err ≠ .ErrRange then some e else none
           | none => none) with
    | some e => (0, some { e with Func := "ParseInt", Num := s0 })
    | none =>
      let bitSize := if bitSize = 0 then IntSize env else bitSize
      let cutoff := 2 ^ (bitSize - 1) % 2 ^ 64
      if !neg && decide (un ≥ cutoff) then
        (wrapInt 64 (cutoff - 1 : Nat), some (rangeError "ParseInt" s0))
      else if neg && decide (un > cutoff) then
        (wrapInt 64 (-(wrapInt 64 (cutoff : Nat))), some (rangeError "ParseInt" s0))
      else
        let n := wrapInt 64 (un : Nat)
        (if neg then wrapInt 64 (-n) else n, none)

/-! ## The step definition and `Run` -/

/-- A non-nil value returned by a handler, opaque to `Run`: an error with its message, or
any other value. -/
inductive Ret
  | error (msg : GoString)
  | value (tag : Nat)
  deriving DecidableEq, Repr

/-- The handler behind `HandlerValue`, a non-variadic function value: `In` lists the
declared parameter types (`typ.In(i)`, with `typ.NumIn()` its length) and `fn` gives the
returned values for the arguments it is called with (`none` is a nil interface). -/
structure Handler where
  In : List GoType
  fn : List Value → List (Option Ret)

/-- The struct `StepDefinition`, without the embedded descriptive metadata and the
multistep fields, which `Run` does not read. -/
structure StepDefinition where
  Args : List RawArgument
  HandlerValue : Handler

/-- A run-time panic. -/
inductive Panic
  | indexOutOfRange (index length : Nat)
  | callTypeMismatch (position : Nat) (got want : GoType)
  deriving DecidableEq, Repr

/-- What ends the argument loop of `Run` early: an error it returns, or a panic. -/
inductive Abort
  | err (e : GoError)
  | panic (p : Panic)
  deriving DecidableEq, Repr

/-- The outcome of `Run`: an error that `Run` itself returns, before any call of the
handler; or the call of the handler with `values`, after which `Run` returns `ret`
(`none` is nil); or a panic. -/
inductive Outcome
  | error (e : GoError)
  | called (values : List Value) (ret : Option Ret)
  | panic (p : Panic)
  deriving DecidableEq, Repr

/-- The indexing `sd.Args[i]`, which panics out of range. -/
def index (Args : List RawArgument) (i : Nat) : Except Abort RawArgument :=
  match Args[i]? with
  | some arg => .ok arg
  | none => .error (.panic (.indexOutOfRange i Args.length))

/-- The method `shouldBeString`. -/
def shouldBeString (Args : List RawArgument) (idx : Nat) : Except Abort GoString :=
  match index Args idx with
  | .error a => .error a
  | .ok arg =>
    match arg with
    | .string s => .ok s
    | _ => .error (.err ⟨"%w %d: \"%v\" of type \"%T\" to string", .ErrCannotConvert,
        [.int idx, .arg arg, .arg arg]⟩)

/-- The body of the loop of `Run` for position `i` with declared type `param`: the
switch on `param.Kind()`, giving the value appended to `values`, or the early exit. -/
def coerce (env : Env) (Args : List RawArgument) (i : Nat) (param : GoType) :
    Except Abort Value :=
  match param.kind with
  | .Int =>
    match shouldBeString Args i with
    | .error err => .error err
    | .ok s =>
      match ParseInt env s 0 with
      | (_, some err) => .error (.err ⟨"%w %d: \"%s\" to int: %s", .ErrCannotConvert,
          [.int i, .text s, .numErr err]⟩)
      | (v, none) => .ok (.int (wrapInt (IntSize env) v))
  | .Int64 =>
    match shouldBeString Args i with
    | .error err => .error err
    | .ok s =>
      match ParseInt env s 64 with
      | (_, some err) => .error (.err ⟨"%w %d: \"%s\" to int64: %s", .ErrCannotConvert,
          [.int i, .text s, .numErr err]⟩)
      | (v, none) => .ok (.int64 (wrapInt 64 v))
  | .Int32 =>
    match shouldBeString Args i with
    | .error err => .error err
    | .ok s =>
      match ParseInt env s 32 with
      | (_, some err) => .error (.err ⟨"%w %d: \"%s\" to int32: %s", .ErrCannotConvert,
          [.int i, .text s, .numErr err]⟩)
      | (v, none) => .ok (.int32 (wrapInt 32 v))
  | .Int16 =>
    match shouldBeString Args i with
    | .error err => .error err
    | .ok s =>
      match ParseInt env s 16 with
      | (_, some err) => .error (.err ⟨"%w %d: \"%s\" to int16: %s", .ErrCannotConvert,
          [.int i, .text s, .numErr err]⟩)
      | (v, none) => .ok (.int16 (wrapInt 16 v))
  | .Int8 =>
    match shouldBeString Args i with
    | .error err => .error err
    | .ok s =>
      match ParseInt env s 8 with
      | (_, some err) => .error (.err ⟨"%w %d: \"%s\" to int8: %s", .ErrCannotConvert,
          [.int i, .text s, .numErr err]⟩)
      | (v, none) => .ok (.int8 (wrapInt 8 v))
  | .String =>
    match shouldBeString Args i with
    | .error err => .error err
    | .ok s => .ok (.string s)
  | .Float64 =>
    match shouldBeString Args i with
    | .error err => .error err
    | .ok s =>
      match env.ParseFloat s 64 with
      | (_, some err) => .error (.err ⟨"%w %d: \"%s\" to float64: %s", .ErrCannotConvert,
          [.int i, .text s, .numErr err]⟩)
      | (v, none) => .ok (.float64 v)
  | .Float32 =>
    match shouldBeString Args i with
    | .error err => .error err
    | .ok s =>
      match env.ParseFloat s 32 with
      | (_, some err) => .error (.err ⟨"%w %d: \"%s\" to float32: %s", .ErrCannotConvert,
          [.int i, .text s, .numErr err]⟩)
      | (v, none) => .ok (.float32 (env.toFloat32 v))
  | .Ptr =>
    match index Args i with
    | .error a => .error a
    | .ok arg =>
      if param.Elem.typeString = "messages.PickleStepArgument_PickleDocString" then
        match arg with
        | .stepArgument v => .ok (.docString (GetDocString v))
        | .docString v => .ok (.docString v)
        | _ => .error (.err
            ⟨"%w %d: \"%v\" of type \"%T\" to *messages.PickleStepArgument_PickleDocString",
              .ErrCannotConvert, [.int i, .arg arg, .arg arg]⟩)
      else if param.Elem.typeString = "messages.PickleStepArgument_PickleTable" then
        match arg with
        | .stepArgument v => .ok (.table (GetDataTable v))
        | .table v => .ok (.table v)
        | _ => .error (.err
            ⟨"%w %d: \"%v\" of type \"%T\" to *messages.PickleStepArgument_PickleTable",
              .ErrCannotConvert, [.int i, .arg arg, .arg arg]⟩)
      else .error (.err ⟨"%w: the argument %d type %T is not supported %s",
        .ErrUnsupportedArgumentType, [.int i, .arg arg, .str param.Elem.typeString]⟩)
  | .Slice =>
    if param = typeOfBytes then
      match shouldBeString Args i with
      | .error err => .error err
      | .ok s => .ok (.bytes s)
    else .error (.err ⟨"%w: the slice argument %d type %s is not supported",
      .ErrUnsupportedArgumentType, [.int i, .kind param.kind]⟩)
  | _ => .error (.err ⟨"%w: the argument %d type %s is not supported",
      .ErrUnsupportedArgumentType, [.int i, .kind param.kind]⟩)

/-- The loop `for i := 0; i < typ.NumIn(); i++` of `Run`, from position `i` with the
declared types still to visit and the values built so far. -/
def coerceLoop (env : Env) (Args : List RawArgument) :
    Nat → List GoType → List Value → Except Abort (List Value)
  | _, [], values => .ok values
  | i, param :: rest, values =>
    match coerce env Args i param with
    | .error a => .error a
    | .ok v => coerceLoop env Args (i + 1) rest (values ++ [v])

/-- The check that `reflect.Value.Call` makes of the arguments against the declared
parameter types, from position `i`: the first argument that is not assignable. -/
def callMismatch : Nat → List GoType → List Value → Option Panic
  | i, T :: Ts, v :: vs =>
    if directlyAssignable T v.typeOf then callMismatch (i + 1) Ts vs
    else some (.callTypeMismatch i v.typeOf T)
  | _, _, _ => none

/-- The call `sd.HandlerValue.Call(values)`: a panic when an argument is not assignable
to its parameter, the returned values otherwise. -/
def Call (h : Handler) (values : List Value) : Except Panic (List (Option Ret)) :=
  match callMismatch 0 h.In values with
  | some p => .error p
  | none => .ok (h.fn values)

/-- The end of `Run`: nil when the handler returned nothing, else its first returned
value. -/
def packResult (res : List (Option Ret)) : Option Ret :=
  match res with
  | [] => none
  | r :: _ => r

/-- The method `StepDefinition.Run`. -/
def Run (env : Env) (sd : StepDefinition) : Outcome :=
  let typ := sd.HandlerValue
  if sd.Args.length < typ.In.length then
    .error ⟨"%w: expected %d arguments, matched %d from step",
      .ErrUnmatchedStepArgumentNumber, [.int typ.In.length, .int sd.Args.length]⟩
  else
    match coerceLoop env sd.Args 0 typ.In [] with
    | .error (.err e) => .error e
    | .error (.panic p) => .panic p
    | .ok values =>
      match Call sd.HandlerValue values with
      | .error p => .panic p
      | .ok res => .called values (packResult res)

/-! ## Examples on concrete inputs -/

/-- An environment for the examples: a 64-bit platform, with a `ParseFloat` that rejects
every text. -/
def env64 : Env := ⟨true, fun s _ => (0, some (syntaxError "ParseFloat" s)), fun f => f⟩

/-- The same on a 32-bit platform. -/
def env32 : Env := ⟨false, fun s _ => (0, some (syntaxError "ParseFloat" s)), fun f => f⟩

/-- A handler with the given parameter types that returns nothing. -/
def handlerOf (In : List GoType) : Handler := ⟨In, fun _ => []⟩

/-- The bytes of an ASCII text literal. -/
def ascii (s : String) : GoString := s.toList.map (fun c => Fin.ofNat c.toNat)

/-! ## Notions of the specification -/

/-- A decimal digit, `'0'` to `'9'`. -/
def isDigit (c : Byte) : Bool := decide (48 ≤ c.val) && decide (c.val ≤ 57)

/-- The number that a run of decimal digits denotes, continuing from `n`. -/
def digitsValue (l : List Byte) (n : Nat) : Nat :=
  l.foldl (fun a c => a * 10 + (c.val - 48)) n

/-- A valid base-10 signed integer literal: an optional sign followed by one or more
decimal digits. -/
def isDecimalLiteral (s : GoString) : Bool :=
  match s with
  | [] => false
  | c :: rest =>
    if c.val = 43 ∨ c.val = 45 then !rest.isEmpty && rest.all isDigit
    else s.all isDigit

/-- The integer that a valid literal denotes. -/
def literalValue (s : GoString) : Int :=
  match s with
  | [] => 0
  | c :: rest =>
    if c.val = 45 then -(digitsValue rest 0 : Nat)
    else if c.val = 43 then (digitsValue rest 0 : Nat)
    else (digitsValue s 0 : Nat)

/-- The decimal digits of `u`, most significant first, put in front of `acc`; `fuel`
bounds the number of digits. -/
def natTextAux : Nat → Nat → GoString → GoString
  | 0, _, acc => acc
  | fuel + 1, u, acc =>
    if u < 10 then Fin.ofNat (48 + u) :: acc
    else natTextAux fuel (u / 10) (Fin.ofNat (48 + u % 10) :: acc)

/-- The decimal text of a natural number, without leading zeros. -/
def natText (u : Nat) : GoString := natTextAux (u + 1) u []

/-- The decimal text rendering of an integer (what `strconv.FormatInt(v, 10)` gives):
a minus sign for a negative number, then the digits of its magnitude. -/
def decimalText (v : Int) : GoString :=
  if v < 0 then (45 : Byte) :: natText v.natAbs else natText v.toNat

/-- The declared kinds that are integer kinds, with the `bitSize` argument that `Run`
passes to `ParseInt` for each. -/
def intBitSize : Kind → Option Nat
  | .Int => some 0
  | .Int64 => some 64
  | .Int32 => some 32
  | .Int16 => some 16
  | .Int8 => some 8
  | _ => none

/-- The width in bits of an integer kind on the platform. -/
def intWidth (env : Env) (k : Kind) : Nat :=
  match k with
  | .Int => IntSize env
  | .Int64 => 64
  | .Int32 => 32
  | .Int16 => 16
  | .Int8 => 8
  | _ => 0

/-- The value of an integer kind that is handed to the handler for the number `v`. -/
def intValue (k : Kind) (v : Int) : Option Value :=
  match k with
  | .Int => some (.int v)
  | .Int64 => some (.int64 v)
  | .Int32 => some (.int32 v)
  | .Int16 => some (.int16 v)
  | .Int8 => some (.int8 v)
  | _ => none

/-- The signed range of width `w`: from `-2 ^ (w - 1)` to `2 ^ (w - 1) - 1`. -/
def inSignedRange (w : Nat) (v : Int) : Prop := -(2 : Int) ^ (w - 1) ≤ v ∧ v < 2 ^ (w - 1)

instance (w : Nat) (v : Int) : Decidable (inSignedRange w v) :=
  inferInstanceAs (Decidable (-(2 : Int) ^ (w - 1) ≤ v ∧ v < 2 ^ (w - 1)))

/-- Whether a step of the loop produced a value. -/
def isOk (r : Except Abort Value) : Bool :=
  match r with
  | .ok _ => true
  | .error _ => false

/-- Every position before `i` coerces successfully. -/
def coercesBefore (env : Env) (sd : StepDefinition) (i : Nat) : Bool :=
  (List.range i).all fun j =>
    match sd.HandlerValue.In[j]? with
    | some p => isOk (coerce env sd.Args j p)
    | none => true

/-- A text-backed parameter kind: an integer of any width, a float of either width, a
string, or the byte sequence `[]byte`. -/
def isTextBacked (param : GoType) : Bool :=
  decide (param.kind ∈ [Kind.Int, .Int8, .Int16, .Int32, .Int64, .Float32, .Float64, .String])
    || decide (param = typeOfBytes)

/-- A document-payload parameter: a pointer whose element is the type
`messages.PickleStepArgument_PickleDocString` of `messages-go`. -/
def isDocStringParam (param : GoType) : Bool :=
  decide (param.kind = .Ptr) && decide (param.Elem = docStringType)

/-- A table-payload parameter: a pointer whose element is the type
`messages.PickleStepArgument_PickleTable` of `messages-go`. -/
def isTableParam (param : GoType) : Bool :=
  decide (param.kind = .Ptr) && decide (param.Elem = tableType)

/-- A supported parameter, in the words of the specification: a text-backed kind or one
of the two payload kinds. Everything else is unsupported. -/
def isSupported (param : GoType) : Bool :=
  isTextBacked param || isDocStringParam param || isTableParam param

/-- What the code rejects as unsupported: a kind outside the cases of the switch, a
pointer whose element does not render as one of the two payload type names, or a slice
type other than `[]byte`. -/
def isRejected (param : GoType) : Bool :=
  match param.kind with
  | .Int | .Int64 | .Int32 | .Int16 | .Int8 | .String | .Float64 | .Float32 => false
  | .Ptr =>
    decide (param.Elem.typeString ≠ "messages.PickleStepArgument_PickleDocString")
      && decide (param.Elem.typeString ≠ "messages.PickleStepArgument_PickleTable")
  | .Slice => decide (param ≠ typeOfBytes)
  | _ => true

/-- The raw argument is a text value (its dynamic type is `string`). -/
def isText (a : RawArgument) : Bool :=
  match a with
  | .string _ => true
  | _ => false

/-- The raw argument is a generic wrapper (its dynamic type is
`*messages.PickleStepArgument`), whatever it contains. -/
def isWrapper (a : RawArgument) : Bool :=
  match a with
  | .stepArgument _ => true
  | _ => false

/-- The raw argument is an unwrapped document payload (its dynamic type is
`*messages.PickleStepArgument_PickleDocString`). -/
def isDocStringArg (a : RawArgument) : Bool :=
  match a with
  | .docString _ => true
  | _ => false

/-- The raw argument is an unwrapped table payload (its dynamic type is
`*messages.PickleStepArgument_PickleTable`). -/
def isTableArg (a : RawArgument) : Bool :=
  match a with
  | .table _ => true
  | _ => false

/-- A type named `PickleStepArgument_PickleDocString` declared in another package that
is also called `messages`. -/
def foreignDocStringType : GoType :=
  .named "example.com/other/messages" "messages" "PickleStepArgument_PickleDocString" .struct

/-- The number that an integer value carries, rendered in decimal. -/
def renderInt : Value → Option GoString
  | .int v => some (decimalText v)
  | .int64 v => some (decimalText v)
  | .int32 v => some (decimalText v)
  | .int16 v => some (decimalText v)
  | .int8 v => some (decimalText v)
  | _ => none

/-- A document payload for the examples. -/
def sampleDoc : PickleDocString := ⟨[], ascii "hello\nworld"⟩

/-- A table payload for the examples. -/
def sampleTable : PickleTable := ⟨[⟨[⟨ascii "a"⟩, ⟨ascii "b"⟩]⟩]⟩

/-! ## The metadata accessor -/

/-- Modelled from the spec: the type `formatters.StepDefinition`, which is declared outside
`internal/models`; the specification describes it as the descriptive metadata of a step
definition, its pattern text and its source location, opaque to this package. -/
structure formatters.StepDefinition where
  pattern : GoString
  location : GoString
  deriving DecidableEq, Repr

set_option linter.dupNamespace false in
/-- The whole struct `models.StepDefinition`: the embedded `formatters.StepDefinition`,
the fields that `Run` reads, and the two multistep fields. -/
structure models.StepDefinition where
  StepDefinition : formatters.StepDefinition
  Args : List RawArgument
  HandlerValue : Handler
  Nested : Bool
  Undefined : List GoString

/-- The method `GetInternalStepDefinition` on a receiver `sd *StepDefinition` (`none` is
the nil receiver): nil for nil, else the pointer `&sd.StepDefinition`. -/
def GetInternalStepDefinition (sd : Option models.StepDefinition) :
    Option formatters.StepDefinition :=
  match sd with
  | none => none
  | some sd => some sd.StepDefinition

/-! ## Further notions of the specification -/

/-- The test `errors.Is(e, target)` on an error built by `fmt.Errorf` with `%w`, for a
target made by `errors.New`: the error itself is a different pointer, unwrapping it once
gives the error value it wraps, and that one unwraps no further. -/
def errorsIs (e : GoError) (target : ErrorValue) : Bool := decide (e.wrapped = target)

/-- Whether the call of the handler panics on the values that the loop built. -/
def callPanics (env : Env) (sd : StepDefinition) : Bool :=
  match coerceLoop env sd.Args 0 sd.HandlerValue.In [] with
  | .ok values => (callMismatch 0 sd.HandlerValue.In values).isSome
  | .error _ => false

/-- A defined type `type MyInt int` of a user package. -/
def myIntType : GoType := .named "example.com/steps" "steps" "MyInt" (.basic .Int)

/-- A defined type `type Name string` of a user package. -/
def nameType : GoType := .named "example.com/steps" "steps" "Name" (.basic .String)

/-- The handler `func() error { return nil }`: it yields one return value, the nil
interface. -/
def nilErrorHandler : Handler := ⟨[], fun _ => [none]⟩

/-- The handler `func(n int) error` that always returns the same non-nil error. -/
def failingHandler : Handler := ⟨[.basic .Int], fun _ => [some (.error (ascii "boom"))]⟩

/-- Every position below the arity other than `i` coerces successfully. -/
def coercesElsewhere (env : Env) (sd : StepDefinition) (i : Nat) : Bool :=
  (List.range sd.HandlerValue.In.length).all fun j =>
    decide (j = i) ||
      match sd.HandlerValue.In[j]? with
      | some p => isOk (coerce env sd.Args j p)
      | none => true

/-! ## Lemmas on `strconv` -/

theorem digitOf_of_isDigit (c : Byte) (h : isDigit c = true) : digitOf c = some (c.val - 48) := by
  simp [isDigit] at h
  simp [digitOf, h]

theorem digitOf_of_not_isDigit (c : Byte) (h : isDigit c = false) (d : Nat)
    (hd : digitOf c = some d) : 10 ≤ d := by
  simp [isDigit] at h
  unfold digitOf at hd
  split at hd
  · omega
  · split at hd
    · simp at hd; omega
    · simp at hd

theorem le_digitsValue (l : List Byte) (n : Nat) : n ≤ digitsValue l n := by
  induction l generalizing n with
  | nil => simp [digitsValue]
  | cons c cs ih =>
    have := ih (n * 10 + (c.val - 48))
    simp only [digitsValue, List.foldl_cons] at this ⊢
    omega

theorem parseUintLoop_digits (s0 : GoString) (maxVal : Nat) (hmax : maxVal ≤ maxUint64)
    (l : List Byte) (hl : ∀ c ∈ l, isDigit c = true) (n : Nat) (hn : n ≤ maxVal) :
    parseUintLoop s0 maxVal l n =
      if digitsValue l n ≤ maxVal then (digitsValue l n, none)
      else (maxVal, some (rangeError "ParseUint" s0)) := by
  induction l generalizing n with
  | nil => simp [parseUintLoop, digitsValue, hn]
  | cons c cs ih =>
    have hc : isDigit c = true := hl c (by simp)
    have hcs : ∀ c ∈ cs, isDigit c = true := fun x hx => hl x (by simp [hx])
    have hd : c.val - 48 < 10 := by simp [isDigit] at hc; omega
    have hmono := le_digitsValue cs (n * 10 + (c.val - 48))
    have hval : digitsValue (c :: cs) n = digitsValue cs (n * 10 + (c.val - 48)) := by
      simp [digitsValue]
    simp only [maxUint64] at hmax
    norm_num at hmax
    rw [parseUintLoop, digitOf_of_isDigit c hc, hval]
    simp only [maxUint64]
    norm_num
    have hd10 : ¬ 10 ≤ c.val - 48 := by omega
    simp only [hd10, if_false]
    by_cases h1 : 1844674407370955162 ≤ n
    · have hR : ¬ digitsValue cs (n * 10 + (c.val - 48)) ≤ maxVal := by omega
      simp only [h1, if_true, hR, if_false]
    · have h10 : n * 10 % 18446744073709551616 = n * 10 := Nat.mod_eq_of_lt (by omega)
      simp only [h1, if_false, h10]
      by_cases h2 : n * 10 + (c.val - 48) < 18446744073709551616
      · have h11 : (n * 10 + (c.val - 48)) % 18446744073709551616 = n * 10 + (c.val - 48) :=
          Nat.mod_eq_of_lt h2
        rw [h11]
        by_cases h3 : n * 10 + (c.val - 48) > maxVal
        · have hR : ¬ digitsValue cs (n * 10 + (c.val - 48)) ≤ maxVal := by omega
          have hL : n * 10 + (c.val - 48) < n * 10 ∨ n * 10 + (c.val - 48) > maxVal :=
            Or.inr h3
          simp only [hL, if_true, hR, if_false]
        · have hL : ¬ (n * 10 + (c.val - 48) < n * 10 ∨ n * 10 + (c.val - 48) > maxVal) := by
            omega
          simp only [hL, if_false]
          exact ih hcs (n * 10 + (c.val - 48)) (by omega)
      · have hR : ¬ digitsValue cs (n * 10 + (c.val - 48)) ≤ maxVal := by omega
        have hL : (n * 10 + (c.val - 48)) % 18446744073709551616 < n * 10 ∨
            (n * 10 + (c.val - 48)) % 18446744073709551616 > maxVal := by
          left; omega
        simp only [hL, if_true, hR, if_false]

theorem parseUintLoop_error_shape (s0 : GoString) (maxVal : Nat) (l : List Byte) (n : Nat)
    (e : NumError) (h : (parseUintLoop s0 maxVal l n).2 = some e) :
    e = syntaxError "ParseUint" s0 ∨
      (e = rangeError "ParseUint" s0 ∧ (parseUintLoop s0 maxVal l n).1 = maxVal) := by
  induction l generalizing n with
  | nil => simp [parseUintLoop] at h
  | cons c cs ih =>
    rw [parseUintLoop] at h ⊢
    cases hd : digitOf c with
    | none => simp only [hd] at h ⊢; left; simpa using h.symm
    | some d =>
      simp only [hd] at h ⊢
      split_ifs at h ⊢ with h1 h2 h3
      · left; simpa using h.symm
      · right; exact ⟨by simpa using h.symm, rfl⟩
      · right; exact ⟨by simpa using h.symm, rfl⟩
      · exact ih _ h

theorem parseUintLoop_nondigit (s0 : GoString) (maxVal : Nat) (l : List Byte)
    (hl : ∃ c ∈ l, isDigit c = false) (n : Nat) :
    (parseUintLoop s0 maxVal l n).2 ≠ none := by
  induction l generalizing n with
  | nil => simp at hl
  | cons c cs ih =>
    rw [parseUintLoop]
    cases hd : digitOf c with
    | none => simp
    | some d =>
      simp only
      by_cases hc : isDigit c = true
      · have hcs : ∃ x ∈ cs, isDigit x = false := by
          obtain ⟨x, hx, hxd⟩ := hl
          rcases List.mem_cons.mp hx with rfl | hx
          · simp [hc] at hxd
          · exact ⟨x, hx, hxd⟩
        split_ifs
        · simp
        · simp
        · simp
        · exact ih hcs _
      · have := digitOf_of_not_isDigit c (by simpa using hc) d hd
        simp [this]

/-- The bit sizes that `Run` passes to `ParseInt`. -/
theorem effective_bitSize (env : Env) (b : Nat) (hb : b ∈ [0, 8, 16, 32, 64]) :
    b ≤ 64 ∧ ((if b = 0 then IntSize env else b) = 8 ∨ (if b = 0 then IntSize env else b) = 16 ∨
      (if b = 0 then IntSize env else b) = 32 ∨ (if b = 0 then IntSize env else b) = 64) := by
  simp only [List.mem_cons, List.mem_singleton, List.not_mem_nil, or_false] at hb
  rcases hb with rfl | rfl | rfl | rfl | rfl
  · cases h : env.is64 <;> simp [IntSize, h]
  all_goals simp

theorem width_facts (w : Nat) (hw : w = 8 ∨ w = 16 ∨ w = 32 ∨ w = 64) :
    ∃ M C : Nat, (2 ^ w % 2 ^ 64 + 2 ^ 64 - 1) % 2 ^ 64 = M ∧ 2 ^ (w - 1) % 2 ^ 64 = C ∧
      2 ^ (w - 1) = C ∧ M + 1 = 2 * C ∧ 2 ≤ C ∧ C ≤ 9223372036854775808 := by
  rcases hw with rfl | rfl | rfl | rfl <;> exact ⟨_, _, rfl, rfl, by norm_num, by norm_num⟩

theorem ParseUint_digits (env : Env) (s : GoString) (b : Nat) (hb : b ∈ [0, 8, 16, 32, 64])
    (hs : s ≠ []) (hdig : ∀ c ∈ s, isDigit c = true) (M : Nat)
    (hM : (2 ^ (if b = 0 then IntSize env else b) % 2 ^ 64 + 2 ^ 64 - 1) % 2 ^ 64 = M) :
    ParseUint env s b =
      if digitsValue s 0 ≤ M then (digitsValue s 0, none)
      else (M, some (rangeError "ParseUint" s)) := by
  obtain ⟨hb64, hw⟩ := effective_bitSize env b hb
  have hle : M ≤ maxUint64 := by
    rw [← hM]; simp only [maxUint64]; norm_num
    have := Nat.mod_lt (2 ^ (if b = 0 then IntSize env else b) % 18446744073709551616 +
      18446744073709551615) (show 18446744073709551616 > 0 by norm_num)
    omega
  have hb' : ¬ (b ≠ 0 ∧ b > 64) := by omega
  simp only [ParseUint, hs, if_false, hb', hM]
  exact parseUintLoop_digits s M hle s hdig 0 (Nat.zero_le _)

theorem ParseUint_nondigit (env : Env) (s : GoString) (b : Nat) (hb : b ∈ [0, 8, 16, 32, 64])
    (hdig : s = [] ∨ ∃ c ∈ s, isDigit c = false) (M : Nat)
    (hM : (2 ^ (if b = 0 then IntSize env else b) % 2 ^ 64 + 2 ^ 64 - 1) % 2 ^ 64 = M) :
    ∃ un e, ParseUint env s b = (un, some e) ∧
      (e = syntaxError "ParseUint" s ∨ (e = rangeError "ParseUint" s ∧ un = M)) := by
  obtain ⟨hb64, hw⟩ := effective_bitSize env b hb
  have hb' : ¬ (b ≠ 0 ∧ b > 64) := by omega
  by_cases hs : s = []
  · exact ⟨0, syntaxError "ParseUint" s, by simp [ParseUint, hs], Or.inl rfl⟩
  · have hnd : ∃ c ∈ s, isDigit c = false := hdig.resolve_left hs
    simp only [ParseUint, hs, if_false, hb', hM]
    have h1 := parseUintLoop_nondigit s M s hnd 0
    cases hr : parseUintLoop s M s 0 with
    | mk un err =>
      cases err with
      | none => simp [hr] at h1
      | some e =>
        refine ⟨un, e, rfl, ?_⟩
        have h2 := parseUintLoop_error_shape s M s 0 e (by simp [hr])
        simpa [hr] using h2

theorem exists_nondigit (l : List Byte) (h : l.all isDigit = false) :
    ∃ x ∈ l, isDigit x = false := by
  induction l with
  | nil => simp at h
  | cons c cs ih =>
    by_cases hc : isDigit c = true
    · simp only [List.all_cons, hc, Bool.true_and] at h
      obtain ⟨x, hx, hxd⟩ := ih h
      exact ⟨x, List.mem_cons_of_mem _ hx, hxd⟩
    · exact ⟨c, List.mem_cons_self _ _, by simpa using hc⟩

theorem ParseInt_invalid (env : Env) (s : GoString) (b : Nat) (hb : b ∈ [0, 8, 16, 32, 64])
    (h : isDecimalLiteral s = false) :
    (ParseInt env s b).2 = some (syntaxError "ParseInt" s) ∨
      (ParseInt env s b).2 = some (rangeError "ParseInt" s) := by
  cases s with
  | nil => left; simp [ParseInt]
  | cons c rest =>
    obtain ⟨hb64, hw⟩ := effective_bitSize env b hb
    obtain ⟨M, C, hM, hC, -, hMC, hC2, hC63⟩ := width_facts _ hw
    have hnd : (if c.val = 43 then rest else if c.val = 45 then rest else c :: rest) = [] ∨
        ∃ x ∈ (if c.val = 43 then rest else if c.val = 45 then rest else c :: rest),
          isDigit x = false := by
      simp only [isDecimalLiteral] at h
      by_cases h43 : c.val = 43
      · simp only [h43, true_or, if_true] at h ⊢
        cases rest with
        | nil => left; rfl
        | cons r rs => right; exact exists_nondigit _ (by simpa using h)
      · by_cases h45 : c.val = 45
        · simp only [h45, or_true, if_true] at h ⊢
          simp only [show ¬ (45 = 43) by decide, if_false]
          cases rest with
          | nil => left; rfl
          | cons r rs => right; exact exists_nondigit _ (by simpa using h)
        · simp only [h43, h45, or_self, if_false] at h ⊢
          right; exact exists_nondigit _ h
    obtain ⟨un, e, hPU, he⟩ := ParseUint_nondigit env _ b hb hnd M hM
    simp only [ParseInt, hPU]
    rcases he with rfl | ⟨rfl, rfl⟩
    · left; simp [syntaxError]
    · right
      simp only [rangeError, hC, ne_eq, not_true, if_false]
      by_cases h45 : c.val = 45
      · have h1 : C < un := by omega
        simp [h45, h1]
      · have h1 : C ≤ un := by omega
        simp [h45, h1]

theorem wrapInt_64_of_lt (U : Nat) (h : U < 9223372036854775808) :
    wrapInt 64 (U : Int) = U := by
  unfold wrapInt
  norm_num
  omega

theorem wrapInt_64_neg (U : Nat) (h : U ≤ 9223372036854775808) :
    wrapInt 64 (-(wrapInt 64 (U : Int))) = -(U : Int) := by
  unfold wrapInt
  norm_num
  omega

theorem ParseInt_of_digits (env : Env) (c : Byte) (rest : GoString) (b : Nat)
    (hb : b ∈ [0, 8, 16, 32, 64]) (s1 : GoString)
    (hs1 : s1 = if c.val = 43 then rest else if c.val = 45 then rest else c :: rest)
    (hne : s1 ≠ []) (hdig : ∀ x ∈ s1, isDigit x = true) (C : Nat)
    (hC : 2 ^ ((if b = 0 then IntSize env else b) - 1) = C) :
    ParseInt env (c :: rest) b =
      if c.val = 45 then
        (if digitsValue s1 0 ≤ C then (-(digitsValue s1 0 : Int), none)
         else (wrapInt 64 (-(wrapInt 64 (C : Nat))), some (rangeError "ParseInt" (c :: rest))))
      else
        (if digitsValue s1 0 < C then ((digitsValue s1 0 : Int), none)
         else (wrapInt 64 (C - 1 : Nat), some (rangeError "ParseInt" (c :: rest)))) := by
  obtain ⟨hb64, hw⟩ := effective_bitSize env b hb
  obtain ⟨M, C', hM, hC', hC'', hMC, hC2, hC63⟩ := width_facts _ hw
  have hCC : C' = C := by rw [← hC'', hC]
  subst hCC
  have hPU := ParseUint_digits env s1 b hb hne hdig M hM
  subst hs1
  simp only [ParseInt, hPU, hC']
  generalize digitsValue (if c.val = 43 then rest else if c.val = 45 then rest
    else c :: rest) 0 = U
  by_cases hU : U ≤ M
  · simp only [hU, if_true]
    by_cases h45 : c.val = 45
    · by_cases h1 : U ≤ C'
      · have h2 : ¬ (U > C') := by omega
        simp [h45, h1, h2, wrapInt_64_neg U (by omega)]
      · have h2 : U > C' := by omega
        simp [h45, h1, h2]
    · by_cases h1 : U < C'
      · have h2 : ¬ (U ≥ C') := by omega
        simp [h45, h1, h2, wrapInt_64_of_lt U (by omega)]
      · have h2 : U ≥ C' := by omega
        simp [h45, h1, h2]
  · simp only [hU, if_false, rangeError]
    by_cases h45 : c.val = 45
    · have h1 : ¬ U ≤ C' := by omega
      have h2 : C' < M := by omega
      simp [h45, h1, h2]
    · have h1 : ¬ U < C' := by omega
      have h2 : C' ≤ M := by omega
      simp [h45, h1, h2]

theorem ParseInt_literal (env : Env) (s : GoString) (b : Nat) (hb : b ∈ [0, 8, 16, 32, 64])
    (hlit : isDecimalLiteral s = true) :
    (inSignedRange (if b = 0 then IntSize env else b) (literalValue s) →
        ParseInt env s b = (literalValue s, none)) ∧
      (¬ inSignedRange (if b = 0 then IntSize env else b) (literalValue s) →
        (ParseInt env s b).2 = some (rangeError "ParseInt" s)) := by
  cases s with
  | nil => simp [isDecimalLiteral] at hlit
  | cons c rest =>
    obtain ⟨hb64, hw⟩ := effective_bitSize env b hb
    obtain ⟨M, C, hM, hC', hC, hMC, hC2, hC63⟩ := width_facts _ hw
    have hCz : (2 : Int) ^ ((if b = 0 then IntSize env else b) - 1) = (C : Int) := by
      rw [← hC]; push_cast; rfl
    have key := fun s1 h1 h2 h3 => ParseInt_of_digits env c rest b hb s1 h1 h2 h3 C hC
    simp only [inSignedRange, hCz]
    simp only [isDecimalLiteral] at hlit
    by_cases h43 : c.val = 43
    · have h45 : ¬ c.val = 45 := by omega
      simp only [h43, true_or, if_true, Bool.and_eq_true, Bool.not_eq_true',
        List.isEmpty_eq_false, List.all_eq_true] at hlit
      have hk := key rest (by simp [h43]) (by simpa using hlit.1) hlit.2
      simp only [h45, if_false] at hk
      simp only [literalValue, h43, if_true, show ¬ ((43 : Nat) = 45) by decide, if_false, hk]
      constructor
      · intro hr
        have : digitsValue rest 0 < C := by omega
        simp [this]
      · intro hr
        have : ¬ digitsValue rest 0 < C := by omega
        simp [this]
    · by_cases h45 : c.val = 45
      · simp only [h45, or_true, if_true, Bool.and_eq_true, Bool.not_eq_true',
          List.isEmpty_eq_false, List.all_eq_true] at hlit
        have hk := key rest (by simp [h45]) (by simpa using hlit.1) hlit.2
        simp only [h45, if_true] at hk
        simp only [literalValue, h45, if_true, hk]
        constructor
        · intro hr
          have : digitsValue rest 0 ≤ C := by omega
          simp [this]
        · intro hr
          have : ¬ digitsValue rest 0 ≤ C := by omega
          simp [this]
      · simp only [h43, h45, or_self, if_false, List.all_eq_true] at hlit
        have hk := key (c :: rest) (by simp [h43, h45]) (by simp) hlit
        simp only [h45, if_false] at hk
        simp only [literalValue, h43, h45, if_false, hk]
        constructor
        · intro hr
          have : digitsValue (c :: rest) 0 < C := by omega
          simp [this]
        · intro hr
          have : ¬ digitsValue (c :: rest) 0 < C := by omega
          simp [this]

theorem natTextAux_ne_nil (fuel u : Nat) (acc : GoString) (h : acc ≠ [] ∨ 0 < fuel) :
    natTextAux fuel u acc ≠ [] := by
  induction fuel generalizing u acc with
  | zero => simpa [natTextAux] using h
  | succ n ih =>
    rw [natTextAux]
    split_ifs
    · simp
    · exact ih _ _ (Or.inl (by simp))

theorem natTextAux_digits (fuel u : Nat) (acc : GoString) (hacc : ∀ x ∈ acc, isDigit x = true) :
    ∀ x ∈ natTextAux fuel u acc, isDigit x = true := by
  induction fuel generalizing u acc with
  | zero => simpa [natTextAux] using hacc
  | succ n ih =>
    rw [natTextAux]
    split_ifs with h10
    · intro x hx
      rcases List.mem_cons.mp hx with rfl | hx
      · simp [isDigit, Fin.ofNat]; omega
      · exact hacc x hx
    · apply ih
      intro x hx
      rcases List.mem_cons.mp hx with rfl | hx
      · simp [isDigit, Fin.ofNat]; omega
      · exact hacc x hx

theorem natTextAux_value (fuel u : Nat) (acc : GoString) (h : u < fuel) :
    digitsValue (natTextAux fuel u acc) 0 = digitsValue acc u := by
  induction fuel generalizing u acc with
  | zero => omega
  | succ n ih =>
    rw [natTextAux]
    split_ifs with h10
    · have : ((Fin.ofNat (48 + u) : Byte).val - 48) = u := by simp [Fin.ofNat]; omega
      simp [digitsValue, this]
    · rw [ih (u / 10) _ (by omega)]
      have : ((Fin.ofNat (48 + u % 10) : Byte).val - 48) = u % 10 := by simp [Fin.ofNat]; omega
      simp only [digitsValue, List.foldl_cons, this]
      congr 1
      omega

theorem natText_spec (u : Nat) :
    natText u ≠ [] ∧ (∀ x ∈ natText u, isDigit x = true) ∧ digitsValue (natText u) 0 = u :=
  ⟨natTextAux_ne_nil _ _ _ (Or.inr (Nat.succ_pos u)),
   natTextAux_digits _ _ _ (by simp),
   by rw [natText, natTextAux_value _ _ _ (Nat.lt_succ_self u)]; rfl⟩

theorem decimalText_literal (v : Int) :
    isDecimalLiteral (decimalText v) = true ∧ literalValue (decimalText v) = v := by
  obtain ⟨hne, hdig, hval⟩ := natText_spec v.natAbs
  by_cases hv : v < 0
  · simp only [decimalText, hv, if_true, isDecimalLiteral, literalValue]
    have h45 : ((45 : Byte).val = 45) := rfl
    simp only [h45, or_true, if_true, hval]
    refine ⟨?_, by omega⟩
    simp only [Bool.and_eq_true, Bool.not_eq_true', List.isEmpty_eq_false, List.all_eq_true]
    exact ⟨by simpa using hne, hdig⟩
  · have hto : v.toNat = v.natAbs := by omega
    simp only [decimalText, hv, if_false, hto]
    cases hs : natText v.natAbs with
    | nil => exact absurd hs hne
    | cons c rest =>
      rw [hs] at hdig hval
      have hc : isDigit c = true := hdig c (List.mem_cons_self _ _)
      simp only [isDigit, Bool.and_eq_true, decide_eq_true_eq] at hc
      have h43 : ¬ c.val = 43 := by omega
      have h45 : ¬ c.val = 45 := by omega
      simp only [isDecimalLiteral, literalValue, h43, h45, or_self, if_false, hval,
        List.all_eq_true]
      exact ⟨hdig, by omega⟩

/-! ## Lemmas on the argument loop -/

theorem index_of_getElem? (Args : List RawArgument) (i : Nat) (a : RawArgument)
    (h : Args[i]? = some a) : index Args i = .ok a := by
  simp [index, h]

theorem shouldBeString_of_string (Args : List RawArgument) (i : Nat) (s : GoString)
    (h : Args[i]? = some (.string s)) : shouldBeString Args i = .ok s := by
  simp [shouldBeString, index_of_getElem? Args i _ h]

theorem shouldBeString_of_not_string (Args : List RawArgument) (i : Nat) (a : RawArgument)
    (h : Args[i]? = some a) (ha : ∀ s, a ≠ .string s) :
    shouldBeString Args i = .error (.err ⟨"%w %d: \"%v\" of type \"%T\" to string",
      .ErrCannotConvert, [.int i, .arg a, .arg a]⟩) := by
  simp only [shouldBeString, index_of_getElem? Args i _ h]

theorem coerce_congr (env : Env) (Args Args' : List RawArgument) (i : Nat) (param : GoType)
    (h : index Args i = index Args' i) : coerce env Args i param = coerce env Args' i param := by
  simp only [coerce, shouldBeString, h]

theorem coerceLoop_congr (env : Env) (Args Args' : List RawArgument) (params : List GoType)
    (i : Nat) (values : List Value)
    (h : ∀ j, j < params.length → index Args (i + j) = index Args' (i + j)) :
    coerceLoop env Args i params values = coerceLoop env Args' i params values := by
  induction params generalizing i values with
  | nil => rfl
  | cons p ps ih =>
    have h0 : index Args i = index Args' i := by simpa using h 0 (by simp)
    simp only [coerceLoop, coerce_congr env Args Args' i p h0]
    cases coerce env Args' i p with
    | error a => rfl
    | ok v =>
      simp only
      apply ih
      intro j hj
      have := h (j + 1) (by simp; omega)
      simpa [Nat.add_assoc, Nat.add_comm 1 j] using this

theorem coerceLoop_first_failure (env : Env) (Args : List RawArgument) (params : List GoType)
    (i : Nat) (values : List Value) (k : Nat) (p : GoType) (a : Abort)
    (hbefore : ∀ j q, j < k → params[j]? = some q → isOk (coerce env Args (i + j) q) = true)
    (hp : params[k]? = some p) (ha : coerce env Args (i + k) p = .error a) :
    coerceLoop env Args i params values = .error a := by
  induction params generalizing i values k with
  | nil => simp at hp
  | cons q qs ih =>
    cases k with
    | zero =>
      simp only [List.getElem?_cons_zero, Option.some.injEq] at hp
      subst hp
      simp only [Nat.add_zero] at ha
      simp [coerceLoop, ha]
    | succ k =>
      have h0 := hbefore 0 q (Nat.succ_pos k) (by simp)
      simp only [Nat.add_zero] at h0
      simp only [coerceLoop]
      cases hc : coerce env Args i q with
      | error b => simp [hc, isOk] at h0
      | ok v =>
        simp only
        apply ih (i + 1) _ k
        · intro j r hj hr
          have := hbefore (j + 1) r (by omega) (by simpa using hr)
          simpa [Nat.add_assoc, Nat.add_comm 1 j] using this
        · simpa using hp
        · simpa [Nat.add_assoc, Nat.add_comm 1 k] using ha

theorem coercesBefore_spec (env : Env) (sd : StepDefinition) (i : Nat)
    (h : coercesBefore env sd i = true) (j : Nat) (q : GoType) (hj : j < i)
    (hq : sd.HandlerValue.In[j]? = some q) : isOk (coerce env sd.Args (0 + j) q) = true := by
  simp only [coercesBefore, List.all_eq_true, List.mem_range] at h
  have := h j hj
  simpa [hq] using this

theorem Run_first_failure (env : Env) (sd : StepDefinition) (i : Nat) (p : GoType)
    (e : GoError) (hlen : sd.HandlerValue.In.length ≤ sd.Args.length)
    (hbefore : coercesBefore env sd i = true) (hp : sd.HandlerValue.In[i]? = some p)
    (he : coerce env sd.Args i p = .error (.err e)) : Run env sd = .error e := by
  have hloop := coerceLoop_first_failure env sd.Args sd.HandlerValue.In 0 [] i p (.err e)
    (fun j q hj hq => coercesBefore_spec env sd i hbefore j q hj hq) hp (by simpa using he)
  simp [Run, Nat.not_lt.mpr hlen, hloop]

theorem index_ne_err (Args : List RawArgument) (i : Nat) (e : GoError) :
    index Args i ≠ .error (.err e) := by
  unfold index
  cases Args[i]? <;> simp

theorem shouldBeString_error (Args : List RawArgument) (i : Nat) (e : GoError)
    (h : shouldBeString Args i = .error (.err e)) : e.wrapped = .ErrCannotConvert := by
  unfold shouldBeString index at h
  cases hi : Args[i]? with
  | none => simp [hi] at h
  | some a =>
    simp only [hi] at h
    cases a <;> simp at h <;> subst h <;> rfl

theorem coerce_error_wrapped (env : Env) (Args : List RawArgument) (i : Nat) (param : GoType)
    (e : GoError) (h : coerce env Args i param = .error (.err e)) :
    e.wrapped = .ErrCannotConvert ∨ e.wrapped = .ErrUnsupportedArgumentType := by
  have hS := shouldBeString_error Args i e
  unfold coerce at h
  repeat' split at h
  all_goals try (simp at h)
  all_goals try (subst h)
  all_goals
    first
    | (left; rfl)
    | (right; rfl)
    | (left; exact hS ‹_›)
    | exact absurd ‹_› (index_ne_err Args i e)

/-! ## Lemmas on the integer cases of the switch -/

theorem wrapInt_of_inSignedRange (w : Nat) (hw : w = 8 ∨ w = 16 ∨ w = 32 ∨ w = 64) (v : Int)
    (h : inSignedRange w v) : wrapInt w v = v := by
  unfold inSignedRange at h
  unfold wrapInt
  rcases hw with rfl | rfl | rfl | rfl <;> norm_num at h ⊢ <;> omega

theorem intWidth_eq (env : Env) (k : Kind) (b : Nat) (hb : intBitSize k = some b) :
    intWidth env k = (if b = 0 then IntSize env else b) ∧ b ∈ [0, 8, 16, 32, 64] := by
  cases k <;> simp [intBitSize] at hb <;> subst hb <;> simp [intWidth]

theorem coerce_int_ok (env : Env) (Args : List RawArgument) (i : Nat) (param : GoType)
    (b : Nat) (s : GoString) (hb : intBitSize param.kind = some b)
    (hs : Args[i]? = some (.string s)) (v : Int) (hv : ParseInt env s b = (v, none)) :
    ∃ val, intValue param.kind (wrapInt (intWidth env param.kind) v) = some val ∧
      coerce env Args i param = .ok val := by
  have hS := shouldBeString_of_string Args i s hs
  cases hk : param.kind <;> rw [hk] at hb <;> simp [intBitSize] at hb <;> subst hb <;>
    simp [coerce, hk, hS, hv, intValue, intWidth]

theorem coerce_int_error (env : Env) (Args : List RawArgument) (i : Nat) (param : GoType)
    (b : Nat) (s : GoString) (hb : intBitSize param.kind = some b)
    (hs : Args[i]? = some (.string s)) (err : NumError)
    (hv : (ParseInt env s b).2 = some err) :
    ∃ e, coerce env Args i param = .error (.err e) ∧ e.wrapped = .ErrCannotConvert ∧
      e.operands = [.int i, .text s, .numErr err] := by
  have hS := shouldBeString_of_string Args i s hs
  obtain ⟨v, hv'⟩ : ∃ v, ParseInt env s b = (v, some err) :=
    ⟨(ParseInt env s b).1, by rw [← hv]⟩
  cases hk : param.kind <;> rw [hk] at hb <;> simp [intBitSize] at hb <;> subst hb <;>
    simp [coerce, hk, hS, hv']

theorem intValue_kind (k : Kind) (v : Int) (val : Value) (hk : intValue k v = some val) :
    (∃ b, intBitSize k = some b) ∧ val.typeOf = .basic k ∧ renderInt val = some (decimalText v) := by
  cases k <;> simp [intValue] at hk <;> subst hk <;> simp [intBitSize, Value.typeOf, renderInt]

theorem Run_single (env : Env) (arg : RawArgument) (extra : List RawArgument) (T : GoType)
    (fn : List Value → List (Option Ret)) (val : Value)
    (hc : coerce env (arg :: extra) 0 T = .ok val) (hT : directlyAssignable T val.typeOf = true) :
    Run env ⟨arg :: extra, ⟨[T], fn⟩⟩ = .called [val] (packResult (fn [val])) := by
  simp [Run, coerceLoop, hc, Call, callMismatch, hT]

theorem coerceLoop_error_wrapped (env : Env) (Args : List RawArgument) (params : List GoType)
    (i : Nat) (values : List Value) (e : GoError)
    (h : coerceLoop env Args i params values = .error (.err e)) :
    e.wrapped = .ErrCannotConvert ∨ e.wrapped = .ErrUnsupportedArgumentType := by
  induction params generalizing i values with
  | nil => simp [coerceLoop] at h
  | cons p ps ih =>
    simp only [coerceLoop] at h
    cases hc : coerce env Args i p with
    | error a =>
      simp only [hc, Except.error.injEq] at h
      subst h
      exact coerce_error_wrapped env Args i p e hc
    | ok v =>
      simp only [hc] at h
      exact ih _ _ h

theorem Run_error_wrapped (env : Env) (sd : StepDefinition) (e : GoError)
    (hlen : sd.HandlerValue.In.length ≤ sd.Args.length) (h : Run env sd = .error e) :
    e.wrapped = .ErrCannotConvert ∨ e.wrapped = .ErrUnsupportedArgumentType := by
  simp only [Run, Nat.not_lt.mpr hlen, if_false] at h
  cases hl : coerceLoop env sd.Args 0 sd.HandlerValue.In [] with
  | error a =>
    cases a with
    | err e' =>
      simp only [hl, Outcome.error.injEq] at h
      subst h
      exact coerceLoop_error_wrapped env _ _ _ _ _ hl
    | panic p => simp [hl] at h
  | ok values =>
    simp only [hl] at h
    cases hcall : Call sd.HandlerValue values <;> simp [hcall] at h

theorem index_take (Args : List RawArgument) (n i : Nat) (hi : i < n) (hn : n ≤ Args.length) :
    index (Args.take n) i = index Args i := by
  have h1 : i < Args.length := Nat.lt_of_lt_of_le hi hn
  simp [index, List.getElem?_take, hi, List.getElem?_eq_getElem h1]

theorem index_of_take_eq (Args Args' : List RawArgument) (n i : Nat) (hi : i < n)
    (hn : n ≤ Args.length) (hn' : n ≤ Args'.length) (h : Args'.take n = Args.take n) :
    index Args' i = index Args i := by
  rw [← index_take Args' n i hi hn', ← index_take Args n i hi hn, h]

theorem Run_congr (env : Env) (Args Args' : List RawArgument) (hv : Handler)
    (hn : hv.In.length ≤ Args.length) (hn' : hv.In.length ≤ Args'.length)
    (h : Args'.take hv.In.length = Args.take hv.In.length) :
    Run env ⟨Args', hv⟩ = Run env ⟨Args, hv⟩ := by
  have hloop : coerceLoop env Args' 0 hv.In [] = coerceLoop env Args 0 hv.In [] :=
    coerceLoop_congr env Args' Args hv.In 0 [] (fun j hj => by
      simpa using index_of_take_eq Args Args' hv.In.length j hj hn hn' h)
  simp [Run, Nat.not_lt.mpr hn, Nat.not_lt.mpr hn', hloop]

theorem coerce_rejected (env : Env) (Args : List RawArgument) (i : Nat) (param : GoType)
    (hi : i < Args.length) (hrej : isRejected param = true) :
    ∃ e, coerce env Args i param = .error (.err e) ∧
      e.wrapped = .ErrUnsupportedArgumentType ∧ e.operands.head? = some (.int i) := by
  have hidx : index Args i = .ok Args[i] :=
    index_of_getElem? Args i _ (List.getElem?_eq_getElem hi)
  unfold isRejected at hrej
  cases hk : param.kind <;> simp [hk] at hrej <;> simp [coerce, hk, hidx, hrej]

theorem coerce_textBacked (env : Env) (Args : List RawArgument) (i : Nat) (param : GoType)
    (a : RawArgument) (htb : isTextBacked param = true) (ha : Args[i]? = some a)
    (hnt : isText a = false) :
    coerce env Args i param = .error (.err ⟨"%w %d: \"%v\" of type \"%T\" to string",
      .ErrCannotConvert, [.int i, .arg a, .arg a]⟩) := by
  have hS := shouldBeString_of_not_string Args i a ha
    (fun s hs => by subst hs; simp [isText] at hnt)
  unfold isTextBacked at htb
  rcases Bool.or_eq_true _ _ |>.mp htb with h | h
  · cases hk : param.kind <;> simp [hk] at h <;> simp [coerce, hk, hS]
  · have hp : param = typeOfBytes := by simpa using h
    subst hp
    simp [coerce, GoType.kind, typeOfBytes, hS]

/-! ## Lemmas on the whole loop -/

theorem shouldBeString_no_panic (Args : List RawArgument) (i : Nat) (hi : i < Args.length)
    (q : Panic) : shouldBeString Args i ≠ .error (.panic q) := by
  intro h
  have hidx : index Args i = .ok Args[i] :=
    index_of_getElem? Args i _ (List.getElem?_eq_getElem hi)
  unfold shouldBeString at h
  simp only [hidx] at h
  split at h <;> simp at h

theorem coerce_no_panic (env : Env) (Args : List RawArgument) (i : Nat) (param : GoType)
    (hi : i < Args.length) (q : Panic) : coerce env Args i param ≠ .error (.panic q) := by
  intro h
  have hidx : index Args i = .ok Args[i] :=
    index_of_getElem? Args i _ (List.getElem?_eq_getElem hi)
  have hS := shouldBeString_no_panic Args i hi q
  unfold coerce at h
  simp only [hidx] at h
  repeat' split at h
  all_goals
    first
    | (simp at h; done)
    | (simp at h; subst h; exact hS ‹_›)

theorem isOk_eq_true (r : Except Abort Value) (h : isOk r = true) : ∃ v, r = .ok v := by
  cases r with
  | error a => simp [isOk] at h
  | ok v => exact ⟨v, rfl⟩

theorem coerceLoop_ok (env : Env) (Args : List RawArgument) (params : List GoType) (i : Nat)
    (values : List Value)
    (h : ∀ j q, params[j]? = some q → isOk (coerce env Args (i + j) q) = true) :
    ∃ vs, coerceLoop env Args i params values = .ok (values ++ vs) ∧
      vs.length = params.length ∧
      ∀ j q, params[j]? = some q → ∃ v, vs[j]? = some v ∧ coerce env Args (i + j) q = .ok v := by
  induction params generalizing i values with
  | nil => exact ⟨[], by simp [coerceLoop], rfl, by simp⟩
  | cons p ps ih =>
    obtain ⟨v, hv⟩ := isOk_eq_true _ (h 0 p (by simp))
    simp only [Nat.add_zero] at hv
    obtain ⟨vs, hloop, hlen, hvs⟩ := ih (i + 1) (values ++ [v]) (fun j q hq => by
      have := h (j + 1) q (by simpa using hq)
      simpa [Nat.add_assoc, Nat.add_comm 1 j] using this)
    refine ⟨v :: vs, ?_, by simp [hlen], ?_⟩
    · simp [coerceLoop, hv, hloop]
    · intro j q hq
      cases j with
      | zero =>
        simp only [List.getElem?_cons_zero, Option.some.injEq] at hq
        subst hq
        exact ⟨v, by simp, by simpa using hv⟩
      | succ j =>
        obtain ⟨w, hw, hc⟩ := hvs j q (by simpa using hq)
        exact ⟨w, by simpa using hw, by simpa [Nat.add_assoc, Nat.add_comm 1 j] using hc⟩

theorem coerceLoop_fail_exists (env : Env) (Args : List RawArgument) (params : List GoType)
    (i : Nat) (h : ∃ k p, params[k]? = some p ∧ isOk (coerce env Args (i + k) p) = false) :
    ∃ k p a, params[k]? = some p ∧
      (∀ j q, j < k → params[j]? = some q → isOk (coerce env Args (i + j) q) = true) ∧
      coerce env Args (i + k) p = .error a := by
  induction params generalizing i with
  | nil => obtain ⟨k, p, hp, -⟩ := h; simp at hp
  | cons q qs ih =>
    cases hq : coerce env Args i q with
    | error a => exact ⟨0, q, a, by simp, by intro j r hj; omega, by simpa using hq⟩
    | ok v =>
      obtain ⟨k, p, hp, hfail⟩ := h
      cases k with
      | zero =>
        simp only [List.getElem?_cons_zero, Option.some.injEq] at hp
        subst hp
        simp [hq, isOk] at hfail
      | succ k =>
        obtain ⟨k', p', a, hp', hbefore, hc⟩ := ih (i + 1) ⟨k, p, by simpa using hp, by
          simpa [Nat.add_assoc, Nat.add_comm 1 k] using hfail⟩
        refine ⟨k' + 1, p', a, by simpa using hp', ?_, by
          simpa [Nat.add_assoc, Nat.add_comm 1 k'] using hc⟩
        intro j r hj hr
        cases j with
        | zero =>
          simp only [List.getElem?_cons_zero, Option.some.injEq] at hr
          subst hr
          simp [hq, isOk]
        | succ j =>
          have := hbefore j r (by omega) (by simpa using hr)
          simpa [Nat.add_assoc, Nat.add_comm 1 j] using this

theorem coercesBefore_of_forall (env : Env) (sd : StepDefinition) (i : Nat)
    (h : ∀ j q, j < i → sd.HandlerValue.In[j]? = some q →
      isOk (coerce env sd.Args j q) = true) : coercesBefore env sd i = true := by
  simp only [coercesBefore, List.all_eq_true, List.mem_range]
  intro j hj
  cases hq : sd.HandlerValue.In[j]? with
  | none => rfl
  | some q => exact h j q hj hq

theorem lt_length_of_getElem? {α : Type} (l : List α) (i : Nat) (a : α) (h : l[i]? = some a) :
    i < l.length := by
  by_contra hge
  rw [List.getElem?_eq_none (Nat.le_of_not_lt hge)] at h
  exact absurd h (by simp)

theorem Run_all_coerced (env : Env) (sd : StepDefinition)
    (hlen : sd.HandlerValue.In.length ≤ sd.Args.length)
    (hall : coercesBefore env sd sd.HandlerValue.In.length = true) :
    ∃ values, coerceLoop env sd.Args 0 sd.HandlerValue.In [] = .ok values ∧
      values.length = sd.HandlerValue.In.length ∧
      (∀ j q, sd.HandlerValue.In[j]? = some q →
        ∃ v, values[j]? = some v ∧ coerce env sd.Args j q = .ok v) ∧
      Run env sd = (match callMismatch 0 sd.HandlerValue.In values with
        | some p => .panic p
        | none => .called values (packResult (sd.HandlerValue.fn values))) := by
  obtain ⟨vs, hloop, hl, hvs⟩ := coerceLoop_ok env sd.Args sd.HandlerValue.In 0 []
    (fun j q hq => coercesBefore_spec env sd _ hall j q (lt_length_of_getElem? _ _ _ hq) hq)
  simp only [List.nil_append] at hloop
  refine ⟨vs, hloop, hl, fun j q hq => by simpa using hvs j q hq, ?_⟩
  simp only [Run, Nat.not_lt.mpr hlen, if_false, hloop, Call]
  cases callMismatch 0 sd.HandlerValue.In vs <;> rfl

theorem getElem?_of_take_eq {α : Type} (l l' : List α) (n i : Nat) (hi : i < n)
    (h : l'.take n = l.take n) : l'[i]? = l[i]? := by
  have := congrArg (fun x => x[i]?) h
  simpa [List.getElem?_take, hi] using this

theorem coerceLoop_no_panic (env : Env) (Args : List RawArgument) (params : List GoType)
    (i : Nat) (values : List Value) (h : i + params.length ≤ Args.length) (q : Panic) :
    coerceLoop env Args i params values ≠ .error (.panic q) := by
  induction params generalizing i values with
  | nil => simp [coerceLoop]
  | cons p ps ih =>
    simp only [List.length_cons] at h
    simp only [coerceLoop]
    cases hc : coerce env Args i p with
    | error a =>
      simp only [ne_eq, Except.error.injEq]
      intro ha
      exact coerce_no_panic env Args i p (by omega) q (by rw [hc, ha])
    | ok v => exact ih (i + 1) _ (by omega)

theorem callMismatch_kind (i : Nat) (Ts : List GoType) (vs : List Value) (p : Panic)
    (h : callMismatch i Ts vs = some p) : ∃ j a b, p = .callTypeMismatch j a b := by
  induction Ts generalizing i vs with
  | nil => simp [callMismatch] at h
  | cons T Ts ih =>
    cases vs with
    | nil => simp [callMismatch] at h
    | cons v vs =>
      simp only [callMismatch] at h
      split_ifs at h
      · exact ih _ _ h
      · exact ⟨i, _, _, (Option.some.inj h).symm⟩

theorem coerceLoop_ok_inv (env : Env) (Args : List RawArgument) (params : List GoType)
    (i : Nat) (values out : List Value) (h : coerceLoop env Args i params values = .ok out) :
    ∃ vs, out = values ++ vs ∧ vs.length = params.length ∧
      ∀ j q, params[j]? = some q → ∃ v, vs[j]? = some v ∧ coerce env Args (i + j) q = .ok v := by
  induction params generalizing i values with
  | nil =>
    simp only [coerceLoop, Except.ok.injEq] at h
    exact ⟨[], by simp [h], rfl, by simp⟩
  | cons p ps ih =>
    simp only [coerceLoop] at h
    cases hc : coerce env Args i p with
    | error a => simp [hc] at h
    | ok v =>
      simp only [hc] at h
      obtain ⟨vs, hout, hlen, hvs⟩ := ih (i + 1) (values ++ [v]) h
      refine ⟨v :: vs, by simp [hout], by simp [hlen], ?_⟩
      intro j q hq
      cases j with
      | zero =>
        simp only [List.getElem?_cons_zero, Option.some.injEq] at hq
        subst hq
        exact ⟨v, by simp, by simpa using hc⟩
      | succ j =>
        obtain ⟨w, hw, hcw⟩ := hvs j q (by simpa using hq)
        exact ⟨w, by simpa using hw, by simpa [Nat.add_assoc, Nat.add_comm 1 j] using hcw⟩

theorem Run_called_inv (env : Env) (sd : StepDefinition) (values : List Value)
    (ret : Option Ret) (h : Run env sd = .called values ret) :
    sd.HandlerValue.In.length ≤ sd.Args.length ∧
      coerceLoop env sd.Args 0 sd.HandlerValue.In [] = .ok values ∧
      ret = packResult (sd.HandlerValue.fn values) := by
  by_cases hlt : sd.Args.length < sd.HandlerValue.In.length
  · simp [Run, hlt] at h
  · simp only [Run, hlt, if_false] at h
    cases hl : coerceLoop env sd.Args 0 sd.HandlerValue.In [] with
    | error a => cases a <;> simp [hl] at h
    | ok vs =>
      simp only [hl, Call] at h
      cases hm : callMismatch 0 sd.HandlerValue.In vs with
      | some p => simp [hm] at h
      | none =>
        simp only [hm, Outcome.called.injEq] at h
        obtain ⟨h1, h2⟩ := h
        subst h1
        exact ⟨Nat.le_of_not_lt hlt, rfl, h2.symm⟩

theorem coercesBefore_of_elsewhere (env : Env) (sd : StepDefinition) (i : Nat) (param : GoType)
    (hp : sd.HandlerValue.In[i]? = some param) (hi : isOk (coerce env sd.Args i param) = true)
    (h : coercesElsewhere env sd i = true) :
    coercesBefore env sd sd.HandlerValue.In.length = true := by
  apply coercesBefore_of_forall
  intro j q hj hq
  by_cases hji : j = i
  · subst hji
    rw [hp] at hq
    rw [← Option.some.inj hq]
    exact hi
  · simp only [coercesElsewhere, List.all_eq_true, List.mem_range] at h
    have := h j hj
    simpa [hji, hq] using this

theorem Run_position_value (env : Env) (sd : StepDefinition) (i : Nat) (param : GoType)
    (v : Value) (hp : sd.HandlerValue.In[i]? = some param)
    (hc : coerce env sd.Args i param = .ok v) :
    (∀ values ret, Run env sd = .called values ret → values[i]? = some v) ∧
      (sd.HandlerValue.In.length ≤ sd.Args.length → coercesElsewhere env sd i = true →
        callPanics env sd = false →
        ∃ values, Run env sd = .called values (packResult (sd.HandlerValue.fn values)) ∧
          values.length = sd.HandlerValue.In.length ∧ values[i]? = some v) := by
  constructor
  · intro values ret h
    obtain ⟨-, hloop, -⟩ := Run_called_inv env sd values ret h
    obtain ⟨vs, hout, -, hvs⟩ := coerceLoop_ok_inv env sd.Args _ 0 [] values hloop
    obtain ⟨w, hw, hcw⟩ := hvs i param hp
    simp only [Nat.zero_add, hc, Except.ok.injEq] at hcw
    simp only [List.nil_append] at hout
    rw [hout, hw, hcw]
  · intro hlen hothers hcall
    have hall := coercesBefore_of_elsewhere env sd i param hp (by simp [hc, isOk]) hothers
    obtain ⟨values, hloop, hl, hvs, hrun⟩ := Run_all_coerced env sd hlen hall
    have hm : callMismatch 0 sd.HandlerValue.In values = none := by
      simpa [callPanics, hloop] using hcall
    rw [hm] at hrun
    obtain ⟨w, hw, hcw⟩ := hvs i param hp
    rw [hc] at hcw
    exact ⟨values, hrun, hl, by rw [hw, Except.ok.inj hcw]⟩

theorem GoError_may_match_none :
    ∃ e : GoError, errorsIs e .ErrUnmatchedStepArgumentNumber = false ∧
      errorsIs e .ErrCannotConvert = false ∧ errorsIs e .ErrUnsupportedArgumentType = false :=
  ⟨⟨"%w", ⟨7, "other"⟩, []⟩, by decide, by decide, by decide⟩

theorem Run_rejected_parameter (env : Env) (sd : StepDefinition) (i : Nat) (param : GoType)
    (hlen : sd.HandlerValue.In.length ≤ sd.Args.length)
    (hbefore : coercesBefore env sd i = true) (hp : sd.HandlerValue.In[i]? = some param)
    (hrej : isRejected param = true) :
    ∃ e, Run env sd = .error e ∧ e.wrapped = .ErrUnsupportedArgumentType ∧
      e.operands.head? = some (.int i) := by
  have hi : i < sd.Args.length := by
    have := lt_length_of_getElem? _ _ _ hp
    omega
  obtain ⟨e, hc, hw, ho⟩ := coerce_rejected env sd.Args i param hi hrej
  exact ⟨e, Run_first_failure env sd i param e hlen hbefore hp hc, hw, ho⟩

/-! ## The claims -/

/-- C1: when fewer raw arguments are supplied than the handler declares parameters, `Run`
returns the error wrapping `ErrUnmatchedStepArgumentNumber` that reports the arity as the
expected count and the number of raw arguments as the matched count; it does so whatever
the declared types are, before coercing anything and without calling the handler. -/
theorem C1_too_few_arguments (env : Env) (sd : StepDefinition)
    (h : sd.Args.length < sd.HandlerValue.In.length) :
    Run env sd = .error ⟨"%w: expected %d arguments, matched %d from step",
      .ErrUnmatchedStepArgumentNumber,
      [.int sd.HandlerValue.In.length, .int sd.Args.length]⟩ := by
  simp [Run, h]

/-- C1 at a handler of two parameters given one raw argument. -/
theorem C1_too_few_arguments_witness :
    Run env64 ⟨[.string (ascii "only-one")], handlerOf [.basic .String, .basic .Int]⟩
      = .error ⟨"%w: expected %d arguments, matched %d from step",
          .ErrUnmatchedStepArgumentNumber, [.int 2, .int 1]⟩ :=
  C1_too_few_arguments env64
    ⟨[.string (ascii "only-one")], handlerOf [.basic .String, .basic .Int]⟩ (by decide)

/-- C2: for an integer kind `k` and a number `v` in the signed range of its width, the
decimal text of `v` coerces, at any position and for any declared type of that kind, to
the value of kind `k` carrying exactly `v`; a handler declared with the predeclared type
of that kind is called with that value; and rendering the value gives the text back. -/
theorem C2_integer_text_roundtrip (env : Env) (k : Kind) (v : Int) (val : Value)
    (hk : intValue k v = some val) (hr : inSignedRange (intWidth env k) v)
    (fn : List Value → List (Option Ret)) (extra : List RawArgument) :
    Run env ⟨.string (decimalText v) :: extra, ⟨[.basic k], fn⟩⟩
        = .called [val] (packResult (fn [val])) ∧
      (∀ (Args : List RawArgument) (i : Nat) (param : GoType), param.kind = k →
        Args[i]? = some (.string (decimalText v)) → coerce env Args i param = .ok val) ∧
      renderInt val = some (decimalText v) := by
  obtain ⟨⟨b, hb⟩, hty, hrender⟩ := intValue_kind k v val hk
  obtain ⟨hw, hbmem⟩ := intWidth_eq env k b hb
  obtain ⟨hlit, hval⟩ := decimalText_literal v
  have hparse : ParseInt env (decimalText v) b = (v, none) := by
    have := (ParseInt_literal env (decimalText v) b hbmem hlit).1
    rw [hval, ← hw] at this
    exact this hr
  have hwrap : wrapInt (intWidth env k) v = v :=
    wrapInt_of_inSignedRange _ (by rw [hw]; exact (effective_bitSize env b hbmem).2) v hr
  have hcoerce : ∀ (Args : List RawArgument) (i : Nat) (param : GoType), param.kind = k →
      Args[i]? = some (.string (decimalText v)) → coerce env Args i param = .ok val := by
    intro Args i param hpk hs
    obtain ⟨val', hval', hc⟩ := coerce_int_ok env Args i param b (decimalText v)
      (by rw [hpk]; exact hb) hs v hparse
    rw [hpk, hwrap, hk] at hval'
    rw [hc, ← Option.some.inj hval']
  refine ⟨?_, hcoerce, hrender⟩
  apply Run_single
  · exact hcoerce _ 0 (.basic k) rfl (by simp)
  · simp [directlyAssignable, hty]

/-- C2 at the least 8-bit number, whose text is `-128`. -/
theorem C2_integer_text_roundtrip_witness :
    decimalText (-128) = ascii "-128" ∧
      Run env64 ⟨[.string (decimalText (-128))], ⟨[.basic .Int8], fun _ => []⟩⟩
        = .called [.int8 (-128)] none :=
  ⟨by decide,
   (C2_integer_text_roundtrip env64 .Int8 (-128) (.int8 (-128)) rfl (by decide)
      (fun _ => []) []).1⟩

/-- C3: at a parameter of an integer kind, a text that is not an optional sign followed
by one or more decimal digits makes `Run` return an error wrapping `ErrCannotConvert`
that names the position and the text, with the syntax or range error of `ParseInt` as
its cause; the handler is not called, so no number read from a prefix reaches it. -/
theorem C3_invalid_integer_text (env : Env) (sd : StepDefinition) (i : Nat) (param : GoType)
    (b : Nat) (s : GoString) (hlen : sd.HandlerValue.In.length ≤ sd.Args.length)
    (hbefore : coercesBefore env sd i = true) (hp : sd.HandlerValue.In[i]? = some param)
    (hb : intBitSize param.kind = some b) (hs : sd.Args[i]? = some (.string s))
    (hbad : isDecimalLiteral s = false) :
    ∃ e, Run env sd = .error e ∧ e.wrapped = .ErrCannotConvert ∧
      (e.operands = [.int i, .text s, .numErr (syntaxError "ParseInt" s)] ∨
        e.operands = [.int i, .text s, .numErr (rangeError "ParseInt" s)]) := by
  obtain ⟨-, hbmem⟩ := intWidth_eq env param.kind b hb
  rcases ParseInt_invalid env s b hbmem hbad with herr | herr
  · obtain ⟨e, hc, hw, ho⟩ := coerce_int_error env sd.Args i param b s hb hs _ herr
    exact ⟨e, Run_first_failure env sd i param e hlen hbefore hp hc, hw, Or.inl ho⟩
  · obtain ⟨e, hc, hw, ho⟩ := coerce_int_error env sd.Args i param b s hb hs _ herr
    exact ⟨e, Run_first_failure env sd i param e hlen hbefore hp hc, hw, Or.inr ho⟩

/-- C3 at the text `12abc` in the second position of a handler `(string, int)`. -/
theorem C3_invalid_integer_text_witness :
    ∃ e, Run env64 ⟨[.string (ascii "x"), .string (ascii "12abc")],
        handlerOf [.basic .String, .basic .Int]⟩ = .error e ∧
      e.wrapped = .ErrCannotConvert ∧
      (e.operands = [.int 1, .text (ascii "12abc"),
          .numErr (syntaxError "ParseInt" (ascii "12abc"))] ∨
        e.operands = [.int 1, .text (ascii "12abc"),
          .numErr (rangeError "ParseInt" (ascii "12abc"))]) :=
  C3_invalid_integer_text env64
    ⟨[.string (ascii "x"), .string (ascii "12abc")], handlerOf [.basic .String, .basic .Int]⟩
    1 (.basic .Int) 0 (ascii "12abc") (by decide) (by decide) (by decide) (by decide)
    (by decide) (by decide)

/-- C4: at a parameter of an integer kind of width `w`, a well-formed decimal literal
whose value lies outside the signed range of `w` makes `Run` return an error wrapping
`ErrCannotConvert` that names the position and the text, with the range error of
`ParseInt` as its cause; no wrapped or truncated value is built and the handler is not
called. -/
theorem C4_integer_out_of_range (env : Env) (sd : StepDefinition) (i : Nat) (param : GoType)
    (b : Nat) (s : GoString) (hlen : sd.HandlerValue.In.length ≤ sd.Args.length)
    (hbefore : coercesBefore env sd i = true) (hp : sd.HandlerValue.In[i]? = some param)
    (hb : intBitSize param.kind = some b) (hs : sd.Args[i]? = some (.string s))
    (hlit : isDecimalLiteral s = true)
    (hout : ¬ inSignedRange (intWidth env param.kind) (literalValue s)) :
    ∃ e, Run env sd = .error e ∧ e.wrapped = .ErrCannotConvert ∧
      e.operands = [.int i, .text s, .numErr (rangeError "ParseInt" s)] := by
  obtain ⟨hw, hbmem⟩ := intWidth_eq env param.kind b hb
  have herr := (ParseInt_literal env s b hbmem hlit).2 (by rw [← hw]; exact hout)
  obtain ⟨e, hc, hwr, ho⟩ := coerce_int_error env sd.Args i param b s hb hs _ herr
  exact ⟨e, Run_first_failure env sd i param e hlen hbefore hp hc, hwr, ho⟩

/-- C4 at the text `-129` for an 8-bit parameter after a 16-bit one. -/
theorem C4_integer_out_of_range_witness :
    ∃ e, Run env64 ⟨[.string (ascii "128"), .string (ascii "-129")],
        handlerOf [.basic .Int16, .basic .Int8]⟩ = .error e ∧
      e.wrapped = .ErrCannotConvert ∧
      e.operands = [.int 1, .text (ascii "-129"),
        .numErr (rangeError "ParseInt" (ascii "-129"))] :=
  C4_integer_out_of_range env64
    ⟨[.string (ascii "128"), .string (ascii "-129")], handlerOf [.basic .Int16, .basic .Int8]⟩
    1 (.basic .Int8) 8 (ascii "-129") (by decide) (by decide) (by decide) (by decide)
    (by decide) (by decide) (by decide)

/-- C5: when at least as many raw arguments are supplied as the handler declares
parameters, `Run` never returns the error wrapping `ErrUnmatchedStepArgumentNumber`, its
outcome is the outcome on the list cut to its first `arity` elements, and more generally
the outcome on any list with the same first `arity` elements: the raw arguments from
position `arity` on are not inspected. -/
theorem C5_extra_arguments_ignored (env : Env) (sd : StepDefinition)
    (h : sd.HandlerValue.In.length ≤ sd.Args.length) :
    (∀ e, Run env sd = .error e → e.wrapped ≠ .ErrUnmatchedStepArgumentNumber) ∧
      Run env sd = Run env ⟨sd.Args.take sd.HandlerValue.In.length, sd.HandlerValue⟩ ∧
      (∀ Args', sd.HandlerValue.In.length ≤ Args'.length →
        Args'.take sd.HandlerValue.In.length = sd.Args.take sd.HandlerValue.In.length →
        Run env ⟨Args', sd.HandlerValue⟩ = Run env sd) := by
  refine ⟨?_, ?_, ?_⟩
  · intro e he
    rcases Run_error_wrapped env sd e h he with hw | hw <;> rw [hw] <;> decide
  · exact (Run_congr env sd.Args _ sd.HandlerValue h (by simp [h]) (by simp)).symm
  · intro Args' hn' ht
    exact Run_congr env sd.Args Args' sd.HandlerValue h hn' ht

/-- C5 at a handler `(int)` given three raw arguments, the last two of which would not
coerce to anything. -/
theorem C5_extra_arguments_ignored_witness :
    Run env64 ⟨[.string (ascii "42"), .nil, .other "chan int"], handlerOf [.basic .Int]⟩
      = Run env64 ⟨[.string (ascii "42")], handlerOf [.basic .Int]⟩ :=
  (C5_extra_arguments_ignored env64
    ⟨[.string (ascii "42"), .nil, .other "chan int"], handlerOf [.basic .Int]⟩
    (by decide)).2.1

/-- C6 at a failing input: the handler's parameter is a pointer to a type that is not a
payload type of `messages-go` but renders under the same name. It is not a supported
parameter, and yet `Run` does not return the error wrapping `ErrUnsupportedArgumentType`:
with a text raw argument it returns the error wrapping `ErrCannotConvert`, and with a
wrapper raw argument it goes on to the call, which panics on the type mismatch. -/
theorem C6_failing_input :
    isSupported (.ptr foreignDocStringType) = false ∧
      Run env64 ⟨[.string (ascii "x")], handlerOf [.ptr foreignDocStringType]⟩
        = .error ⟨"%w %d: \"%v\" of type \"%T\" to *messages.PickleStepArgument_PickleDocString",
            .ErrCannotConvert, [.int 0, .arg (.string (ascii "x")), .arg (.string (ascii "x"))]⟩ ∧
      Run env64 ⟨[.stepArgument (some ⟨.DocString (some sampleDoc)⟩)],
          handlerOf [.ptr foreignDocStringType]⟩
        = .panic (.callTypeMismatch 0 (.ptr docStringType) (.ptr foreignDocStringType)) := by
  refine ⟨by decide, by decide, by decide⟩

/-- C7: for every document payload `d`, at a document-payload parameter in any position
of any handler, the generic wrapper that holds `d` and the unwrapped pointer to `d` both
coerce to the pointer to `d`; whenever the handler is called, the value it is handed at
that position is the pointer to `d`; and it is called when the list is long enough, the
other positions coerce and the call does not panic. -/
theorem C7_document_payload (env : Env) (sd : StepDefinition) (i : Nat) (param : GoType)
    (d : PickleDocString) (a : RawArgument)
    (hp : sd.HandlerValue.In[i]? = some param) (hparam : isDocStringParam param = true)
    (ha : sd.Args[i]? = some a)
    (hshape : a = .stepArgument (some ⟨.DocString (some d)⟩) ∨ a = .docString (some d)) :
    coerce env sd.Args i param = .ok (.docString (some d)) ∧
      (∀ values ret, Run env sd = .called values ret →
        values[i]? = some (.docString (some d))) ∧
      (sd.HandlerValue.In.length ≤ sd.Args.length → coercesElsewhere env sd i = true →
        callPanics env sd = false →
        ∃ values, Run env sd = .called values (packResult (sd.HandlerValue.fn values)) ∧
          values.length = sd.HandlerValue.In.length ∧
          values[i]? = some (.docString (some d))) := by
  have hidx := index_of_getElem? sd.Args i a ha
  have hdoc : docStringType.typeString = "messages.PickleStepArgument_PickleDocString" := by
    decide
  simp only [isDocStringParam, Bool.and_eq_true, decide_eq_true_eq] at hparam
  have hc : coerce env sd.Args i param = .ok (.docString (some d)) := by
    rcases hshape with rfl | rfl
    · simp [coerce, hparam.1, hparam.2, hidx, hdoc, GetDocString, GetMessage]
    · simp [coerce, hparam.1, hparam.2, hidx, hdoc]
  exact ⟨hc, Run_position_value env sd i param _ hp hc⟩

/-- C7 at a handler `(string, *PickleDocString)`, with the wrapper and with the unwrapped
payload in the second position. -/
theorem C7_document_payload_witness :
    (∃ values, Run env64 ⟨[.string (ascii "a"), .stepArgument (some ⟨.DocString (some sampleDoc)⟩)],
          handlerOf [.basic .String, .ptr docStringType]⟩ = .called values none ∧
        values[1]? = some (.docString (some sampleDoc))) ∧
      (∃ values, Run env64 ⟨[.string (ascii "a"), .docString (some sampleDoc)],
          handlerOf [.basic .String, .ptr docStringType]⟩ = .called values none ∧
        values[1]? = some (.docString (some sampleDoc))) := by
  obtain ⟨v1, h1, -, h1'⟩ := (C7_document_payload env64
    ⟨[.string (ascii "a"), .stepArgument (some ⟨.DocString (some sampleDoc)⟩)],
      handlerOf [.basic .String, .ptr docStringType]⟩ 1 (.ptr docStringType) sampleDoc
    (.stepArgument (some ⟨.DocString (some sampleDoc)⟩)) (by decide) (by decide) (by decide)
    (Or.inl rfl)).2.2 (by decide) (by decide) (by decide)
  obtain ⟨v2, h2, -, h2'⟩ := (C7_document_payload env64
    ⟨[.string (ascii "a"), .docString (some sampleDoc)],
      handlerOf [.basic .String, .ptr docStringType]⟩ 1 (.ptr docStringType) sampleDoc
    (.docString (some sampleDoc)) (by decide) (by decide) (by decide)
    (Or.inr rfl)).2.2 (by decide) (by decide) (by decide)
  exact ⟨⟨v1, h1, h1'⟩, ⟨v2, h2, h2'⟩⟩

/-- C8, as stated, fails: a generic wrapper that holds a table, and one that holds
nothing, are accepted at a document-payload parameter, and the handler is called with the
nil pointer; symmetrically at a table-payload parameter. -/
theorem C8_counterexample :
    Run env64 ⟨[.stepArgument (some ⟨.DataTable (some sampleTable)⟩)],
        handlerOf [.ptr docStringType]⟩ = .called [.docString none] none ∧
      Run env64 ⟨[.stepArgument (some ⟨.unset⟩)], handlerOf [.ptr docStringType]⟩
        = .called [.docString none] none ∧
      Run env64 ⟨[.stepArgument (some ⟨.DocString (some sampleDoc)⟩)],
        handlerOf [.ptr tableType]⟩ = .called [.table none] none := by
  refine ⟨by decide, by decide, by decide⟩

/-- C8, amended: at a document-payload parameter, a raw argument whose dynamic type is
neither the generic wrapper nor the unwrapped document payload (a text value, a table
payload, the nil interface, anything else) makes `Run` return the error wrapping
`ErrCannotConvert` that names the position and the argument, and the handler is not
called; symmetrically at a table-payload parameter. A generic wrapper is left out: it is
accepted whatever it holds. -/
theorem C8_payload_shape_mismatch (env : Env) (sd : StepDefinition) (i : Nat) (param : GoType)
    (a : RawArgument) (hlen : sd.HandlerValue.In.length ≤ sd.Args.length)
    (hbefore : coercesBefore env sd i = true) (hp : sd.HandlerValue.In[i]? = some param)
    (ha : sd.Args[i]? = some a) (hw : isWrapper a = false) :
    (isDocStringParam param = true → isDocStringArg a = false →
        Run env sd = .error
          ⟨"%w %d: \"%v\" of type \"%T\" to *messages.PickleStepArgument_PickleDocString",
            .ErrCannotConvert, [.int i, .arg a, .arg a]⟩) ∧
      (isTableParam param = true → isTableArg a = false →
        Run env sd = .error
          ⟨"%w %d: \"%v\" of type \"%T\" to *messages.PickleStepArgument_PickleTable",
            .ErrCannotConvert, [.int i, .arg a, .arg a]⟩) := by
  have hidx := index_of_getElem? sd.Args i a ha
  have hdoc : docStringType.typeString = "messages.PickleStepArgument_PickleDocString" := by
    decide
  have htab : tableType.typeString = "messages.PickleStepArgument_PickleTable" := by decide
  have hne : ¬ ("messages.PickleStepArgument_PickleTable"
      = "messages.PickleStepArgument_PickleDocString") := by decide
  constructor
  · intro hparam harg
    simp only [isDocStringParam, Bool.and_eq_true, decide_eq_true_eq] at hparam
    apply Run_first_failure env sd i param _ hlen hbefore hp
    cases a <;> simp [isWrapper] at hw <;> simp [isDocStringArg] at harg <;>
      simp [coerce, hparam.1, hparam.2, hidx, hdoc]
  · intro hparam harg
    simp only [isTableParam, Bool.and_eq_true, decide_eq_true_eq] at hparam
    apply Run_first_failure env sd i param _ hlen hbefore hp
    cases a <;> simp [isWrapper] at hw <;> simp [isTableArg] at harg <;>
      simp [coerce, hparam.1, hparam.2, hidx, htab, hne]

/-- C8 amended at a handler `(string, *PickleDocString)` given a table payload in the
second position. -/
theorem C8_payload_shape_mismatch_witness :
    Run env64 ⟨[.string (ascii "a"), .table (some sampleTable)],
        handlerOf [.basic .String, .ptr docStringType]⟩
      = .error
          ⟨"%w %d: \"%v\" of type \"%T\" to *messages.PickleStepArgument_PickleDocString",
            .ErrCannotConvert,
            [.int 1, .arg (.table (some sampleTable)), .arg (.table (some sampleTable))]⟩ :=
  (C8_payload_shape_mismatch env64
    ⟨[.string (ascii "a"), .table (some sampleTable)],
      handlerOf [.basic .String, .ptr docStringType]⟩
    1 (.ptr docStringType) (.table (some sampleTable)) (by decide) (by decide) (by decide)
    (by decide) (by decide)).1 (by decide) (by decide)

/-- C9: for every table payload `t`, at a table-payload parameter in any position of any
handler, the generic wrapper that holds `t` and the unwrapped pointer to `t` both coerce
to the pointer to `t` (the table, not the document, is taken out of the wrapper);
whenever the handler is called, the value it is handed at that position is the pointer to
`t`; and it is called when the list is long enough, the other positions coerce and the
call does not panic. -/
theorem C9_table_payload (env : Env) (sd : StepDefinition) (i : Nat) (param : GoType)
    (t : PickleTable) (a : RawArgument)
    (hp : sd.HandlerValue.In[i]? = some param) (hparam : isTableParam param = true)
    (ha : sd.Args[i]? = some a)
    (hshape : a = .stepArgument (some ⟨.DataTable (some t)⟩) ∨ a = .table (some t)) :
    coerce env sd.Args i param = .ok (.table (some t)) ∧
      (∀ values ret, Run env sd = .called values ret → values[i]? = some (.table (some t))) ∧
      (sd.HandlerValue.In.length ≤ sd.Args.length → coercesElsewhere env sd i = true →
        callPanics env sd = false →
        ∃ values, Run env sd = .called values (packResult (sd.HandlerValue.fn values)) ∧
          values.length = sd.HandlerValue.In.length ∧
          values[i]? = some (.table (some t))) := by
  have hidx := index_of_getElem? sd.Args i a ha
  have htab : tableType.typeString = "messages.PickleStepArgument_PickleTable" := by decide
  have hne : ¬ ("messages.PickleStepArgument_PickleTable"
      = "messages.PickleStepArgument_PickleDocString") := by decide
  simp only [isTableParam, Bool.and_eq_true, decide_eq_true_eq] at hparam
  have hc : coerce env sd.Args i param = .ok (.table (some t)) := by
    rcases hshape with rfl | rfl
    · simp [coerce, hparam.1, hparam.2, hidx, htab, hne, GetDataTable, GetMessage]
    · simp [coerce, hparam.1, hparam.2, hidx, htab, hne]
  exact ⟨hc, Run_position_value env sd i param _ hp hc⟩

/-- C9 at a handler `(int, *PickleTable)`, with the wrapper and with the unwrapped payload
in the second position. -/
theorem C9_table_payload_witness :
    (∃ values, Run env64 ⟨[.string (ascii "7"), .stepArgument (some ⟨.DataTable (some sampleTable)⟩)],
          handlerOf [.basic .Int, .ptr tableType]⟩ = .called values none ∧
        values[1]? = some (.table (some sampleTable))) ∧
      (∃ values, Run env64 ⟨[.string (ascii "7"), .table (some sampleTable)],
          handlerOf [.basic .Int, .ptr tableType]⟩ = .called values none ∧
        values[1]? = some (.table (some sampleTable))) := by
  obtain ⟨v1, h1, -, h1'⟩ := (C9_table_payload env64
    ⟨[.string (ascii "7"), .stepArgument (some ⟨.DataTable (some sampleTable)⟩)],
      handlerOf [.basic .Int, .ptr tableType]⟩ 1 (.ptr tableType) sampleTable
    (.stepArgument (some ⟨.DataTable (some sampleTable)⟩)) (by decide) (by decide) (by decide)
    (Or.inl rfl)).2.2 (by decide) (by decide) (by decide)
  obtain ⟨v2, h2, -, h2'⟩ := (C9_table_payload env64
    ⟨[.string (ascii "7"), .table (some sampleTable)],
      handlerOf [.basic .Int, .ptr tableType]⟩ 1 (.ptr tableType) sampleTable
    (.table (some sampleTable)) (by decide) (by decide) (by decide)
    (Or.inr rfl)).2.2 (by decide) (by decide) (by decide)
  exact ⟨⟨v1, h1, h1'⟩, ⟨v2, h2, h2'⟩⟩

/-- C10: at a text-backed parameter (an integer of any width, a float of either width, a
string, a byte sequence), a raw argument that is not a text value makes `Run` return the
error of `shouldBeString`, which wraps `ErrCannotConvert` and names the position and the
argument; the handler is not called. -/
theorem C10_non_text_argument (env : Env) (sd : StepDefinition) (i : Nat) (param : GoType)
    (a : RawArgument) (hlen : sd.HandlerValue.In.length ≤ sd.Args.length)
    (hbefore : coercesBefore env sd i = true) (hp : sd.HandlerValue.In[i]? = some param)
    (htb : isTextBacked param = true) (ha : sd.Args[i]? = some a)
    (hnt : isText a = false) :
    Run env sd = .error ⟨"%w %d: \"%v\" of type \"%T\" to string", .ErrCannotConvert,
      [.int i, .arg a, .arg a]⟩ :=
  Run_first_failure env sd i param _ hlen hbefore hp
    (coerce_textBacked env sd.Args i param a htb ha hnt)

/-- C10 at a handler `(int, []byte)` given a document payload in the second position. -/
theorem C10_non_text_argument_witness :
    Run env64 ⟨[.string (ascii "7"), .docString (some sampleDoc)],
        handlerOf [.basic .Int, typeOfBytes]⟩
      = .error ⟨"%w %d: \"%v\" of type \"%T\" to string", .ErrCannotConvert,
          [.int 1, .arg (.docString (some sampleDoc)), .arg (.docString (some sampleDoc))]⟩ :=
  C10_non_text_argument env64
    ⟨[.string (ascii "7"), .docString (some sampleDoc)], handlerOf [.basic .Int, typeOfBytes]⟩
    1 typeOfBytes (.docString (some sampleDoc)) (by decide) (by decide) (by decide)
    (by decide) (by decide) (by decide)

/-- C11: when the list is long enough and some position in `0..arity-1` fails to coerce,
there is a smallest failing position `j`: every position before it coerces, coercing
position `j` alone gives an error wrapping `ErrCannotConvert` or
`ErrUnsupportedArgumentType`, and `Run` returns exactly that error, without calling the
handler. The positions after `j` do not influence the result: any step definition with
the same declared types and raw arguments up to position `j` gets the same error. -/
theorem C11_first_failure (env : Env) (sd : StepDefinition)
    (hlen : sd.HandlerValue.In.length ≤ sd.Args.length)
    (hfail : ∃ k p, sd.HandlerValue.In[k]? = some p ∧ isOk (coerce env sd.Args k p) = false) :
    ∃ j p e, sd.HandlerValue.In[j]? = some p ∧ coercesBefore env sd j = true ∧
      coerce env sd.Args j p = .error (.err e) ∧
      (e.wrapped = .ErrCannotConvert ∨ e.wrapped = .ErrUnsupportedArgumentType) ∧
      Run env sd = .error e ∧
      ∀ sd' : StepDefinition, sd'.HandlerValue.In.length ≤ sd'.Args.length →
        sd'.Args.take (j + 1) = sd.Args.take (j + 1) →
        sd'.HandlerValue.In.take (j + 1) = sd.HandlerValue.In.take (j + 1) →
        Run env sd' = .error e := by
  obtain ⟨k, p, a, hp, hbefore, hc⟩ := coerceLoop_fail_exists env sd.Args sd.HandlerValue.In 0
    (by simpa using hfail)
  simp only [Nat.zero_add] at hbefore hc
  have hk : k < sd.HandlerValue.In.length := lt_length_of_getElem? _ _ _ hp
  cases a with
  | panic q => exact absurd hc (coerce_no_panic env sd.Args k p (by omega) q)
  | err e =>
    have hcb : coercesBefore env sd k = true := coercesBefore_of_forall env sd k hbefore
    refine ⟨k, p, e, hp, hcb, hc, coerce_error_wrapped env sd.Args k p e hc,
      Run_first_failure env sd k p e hlen hcb hp hc, ?_⟩
    intro sd' hlen' hargs hin
    have hp' : sd'.HandlerValue.In[k]? = some p := by
      rw [getElem?_of_take_eq _ _ (k + 1) k (by omega) hin]; exact hp
    have hk' : k < sd'.HandlerValue.In.length := lt_length_of_getElem? _ _ _ hp'
    have hidx : ∀ j, j < k + 1 → index sd'.Args j = index sd.Args j := fun j hj =>
      index_of_take_eq sd.Args sd'.Args (k + 1) j hj (by omega) (by omega) hargs
    apply Run_first_failure env sd' k p e hlen' _ hp'
    · rw [coerce_congr env sd'.Args sd.Args k p (hidx k (by omega))]; exact hc
    · apply coercesBefore_of_forall
      intro j q hj hq
      rw [getElem?_of_take_eq _ _ (k + 1) j (by omega) hin] at hq
      rw [coerce_congr env sd'.Args sd.Args j q (hidx j (by omega))]
      exact hbefore j q hj hq

/-- C11 at a handler `(string, int, map[string]int)` whose second and third positions both
fail: `Run` returns the error of one position, without calling the handler. -/
theorem C11_first_failure_witness :
    ∃ j e, Run env64 ⟨[.string (ascii "x"), .string (ascii "12abc"), .nil],
        handlerOf [.basic .String, .basic .Int, .map (.basic .String) (.basic .Int)]⟩
        = .error e ∧
      coercesBefore env64 ⟨[.string (ascii "x"), .string (ascii "12abc"), .nil],
        handlerOf [.basic .String, .basic .Int, .map (.basic .String) (.basic .Int)]⟩ j
        = true ∧
      (e.wrapped = .ErrCannotConvert ∨ e.wrapped = .ErrUnsupportedArgumentType) := by
  obtain ⟨j, p, e, -, hb, -, hw, hr, -⟩ := C11_first_failure env64
    ⟨[.string (ascii "x"), .string (ascii "12abc"), .nil],
      handlerOf [.basic .String, .basic .Int, .map (.basic .String) (.basic .Int)]⟩
    (by decide) ⟨2, .map (.basic .String) (.basic .Int), by decide, by decide⟩
  exact ⟨j, e, hr, hb, hw⟩

/-- C12, as stated, fails: the handler `func() error { return nil }` yields a return
value, and yet the outcome of `Run` is nil, as it is for a handler without return value. -/
theorem C12_counterexample :
    coercesBefore env64 ⟨[], nilErrorHandler⟩ 0 = true ∧
      nilErrorHandler.fn [] ≠ [] ∧
      Run env64 ⟨[], nilErrorHandler⟩ = .called [] none ∧
      Run env64 ⟨[], handlerOf []⟩ = .called [] none := by
  refine ⟨by decide, by decide, by decide, by decide⟩

/-- C12, amended: when every position coerces and the call does not panic, the handler is
called; the outcome of `Run` is nil if the handler yields no return value, and otherwise
it is the first value the handler yields, unchanged, whether that is an error, another
value, or the nil interface. -/
theorem C12_handler_result (env : Env) (sd : StepDefinition)
    (hlen : sd.HandlerValue.In.length ≤ sd.Args.length)
    (hall : coercesBefore env sd sd.HandlerValue.In.length = true)
    (hcall : callPanics env sd = false) :
    ∃ values, coerceLoop env sd.Args 0 sd.HandlerValue.In [] = .ok values ∧
      (sd.HandlerValue.fn values = [] → Run env sd = .called values none) ∧
      (∀ r rest, sd.HandlerValue.fn values = r :: rest → Run env sd = .called values r) := by
  obtain ⟨values, hloop, -, -, hrun⟩ := Run_all_coerced env sd hlen hall
  have hm : callMismatch 0 sd.HandlerValue.In values = none := by
    simpa [callPanics, hloop] using hcall
  rw [hm] at hrun
  refine ⟨values, hloop, ?_, ?_⟩
  · intro h0
    rw [hrun, h0]; rfl
  · intro r rest h1
    rw [hrun, h1]; rfl

/-- C12 amended at a handler `func(n int) error` that returns a non-nil error: the
outcome of `Run` is that error. -/
theorem C12_handler_result_witness :
    ∃ values, Run env64 ⟨[.string (ascii "42")], failingHandler⟩
      = .called values (some (.error (ascii "boom"))) := by
  obtain ⟨values, -, -, h⟩ := C12_handler_result env64 ⟨[.string (ascii "42")], failingHandler⟩
    (by decide) (by decide) (by decide)
  exact ⟨values, h _ [] rfl⟩

/-- C13 at a failing input: the handler `func(name Name, n int)` with `type Name string`
has supported parameter kinds and both raw arguments coerce, and yet the handler is not
called: the value built for the first position has type `string`, and the call panics. -/
theorem C13_failing_input :
    isSupported nameType = true ∧ isSupported (.basic .Int) = true ∧
      coercesBefore env64 ⟨[.string (ascii "x"), .string (ascii "42")],
        handlerOf [nameType, .basic .Int]⟩ 2 = true ∧
      Run env64 ⟨[.string (ascii "x"), .string (ascii "42")], handlerOf [nameType, .basic .Int]⟩
        = .panic (.callTypeMismatch 0 (.basic .String) nameType) := by
  refine ⟨by decide, by decide, by decide, by decide⟩

/-- C14: at a parameter of type `[]byte` in any position of any handler, a text `s`
coerces to the byte sequence of `s`, the same bytes in the same order and hence of the
same length; whenever the handler is called, the value it is handed at that position is
that byte sequence; and it is called when the list is long enough, the other positions
coerce and the call does not panic. -/
theorem C14_byte_sequence (env : Env) (sd : StepDefinition) (i : Nat) (s : GoString)
    (hp : sd.HandlerValue.In[i]? = some typeOfBytes) (ha : sd.Args[i]? = some (.string s)) :
    coerce env sd.Args i typeOfBytes = .ok (.bytes s) ∧
      (∀ values ret, Run env sd = .called values ret → values[i]? = some (.bytes s)) ∧
      (sd.HandlerValue.In.length ≤ sd.Args.length → coercesElsewhere env sd i = true →
        callPanics env sd = false →
        ∃ values, Run env sd = .called values (packResult (sd.HandlerValue.fn values)) ∧
          values.length = sd.HandlerValue.In.length ∧ values[i]? = some (.bytes s)) := by
  have hS := shouldBeString_of_string sd.Args i s ha
  have hc : coerce env sd.Args i typeOfBytes = .ok (.bytes s) := by
    simp [coerce, GoType.kind, typeOfBytes, hS]
  exact ⟨hc, Run_position_value env sd i typeOfBytes _ hp hc⟩

/-- C14 at a handler `(int, []byte)` given the text `abc` in the second position: the
handler receives the three bytes `0x61, 0x62, 0x63`. -/
theorem C14_byte_sequence_witness :
    ∃ values, Run env64 ⟨[.string (ascii "7"), .string (ascii "abc")],
        handlerOf [.basic .Int, typeOfBytes]⟩ = .called values none ∧
      values[1]? = some (.bytes [0x61, 0x62, 0x63]) := by
  obtain ⟨v, h, -, h'⟩ := (C14_byte_sequence env64
    ⟨[.string (ascii "7"), .string (ascii "abc")], handlerOf [.basic .Int, typeOfBytes]⟩
    1 (ascii "abc") (by decide) (by decide)).2.2 (by decide) (by decide) (by decide)
  exact ⟨v, h, h'⟩

/-- C15: at a parameter of kind `string` in any position of any handler, a text `s`
coerces to `s` itself, with no trimming, parsing or re-encoding, the empty text and a
text that looks like a number included; whenever the handler is called, the value it is
handed at that position is `s`; and it is called when the list is long enough, the other
positions coerce and the call does not panic. -/
theorem C15_string_unchanged (env : Env) (sd : StepDefinition) (i : Nat) (param : GoType)
    (s : GoString) (hp : sd.HandlerValue.In[i]? = some param) (hk : param.kind = .String)
    (ha : sd.Args[i]? = some (.string s)) :
    coerce env sd.Args i param = .ok (.string s) ∧
      (∀ values ret, Run env sd = .called values ret → values[i]? = some (.string s)) ∧
      (sd.HandlerValue.In.length ≤ sd.Args.length → coercesElsewhere env sd i = true →
        callPanics env sd = false →
        ∃ values, Run env sd = .called values (packResult (sd.HandlerValue.fn values)) ∧
          values.length = sd.HandlerValue.In.length ∧ values[i]? = some (.string s)) := by
  have hS := shouldBeString_of_string sd.Args i s ha
  have hc : coerce env sd.Args i param = .ok (.string s) := by
    simp [coerce, hk, hS]
  exact ⟨hc, Run_position_value env sd i param _ hp hc⟩

/-- C15 at a handler `(int, string, string)` given the text `42` and the empty text in
the second and third positions. -/
theorem C15_string_unchanged_witness :
    ∃ values, Run env64 ⟨[.string (ascii "7"), .string (ascii "42"), .string []],
        handlerOf [.basic .Int, .basic .String, .basic .String]⟩ = .called values none ∧
      values[1]? = some (.string [0x34, 0x32]) ∧ values[2]? = some (.string []) := by
  obtain ⟨v, h, -, h'⟩ := (C15_string_unchanged env64
    ⟨[.string (ascii "7"), .string (ascii "42"), .string []],
      handlerOf [.basic .Int, .basic .String, .basic .String]⟩
    1 (.basic .String) (ascii "42") (by decide) (by decide) (by decide)).2.2
    (by decide) (by decide) (by decide)
  have h2 := (C15_string_unchanged env64
    ⟨[.string (ascii "7"), .string (ascii "42"), .string []],
      handlerOf [.basic .Int, .basic .String, .basic .String]⟩
    2 (.basic .String) [] (by decide) (by decide) (by decide)).2.1 v none h
  exact ⟨v, h, h', h2⟩

/-- C16: `GetInternalStepDefinition` returns nil exactly on the nil receiver; on a present
step definition it returns that definition's embedded metadata, and the result is the
same whatever `Args`, `HandlerValue`, `Nested` and `Undefined` are. -/
theorem C16_metadata_accessor :
    (∀ sd, GetInternalStepDefinition sd = none ↔ sd = none) ∧
      (∀ sd : models.StepDefinition,
        GetInternalStepDefinition (some sd) = some sd.StepDefinition) ∧
      (∀ (m : formatters.StepDefinition) (a a' : List RawArgument) (h h' : Handler)
          (n n' : Bool) (u u' : List GoString),
        GetInternalStepDefinition (some ⟨m, a, h, n, u⟩)
          = GetInternalStepDefinition (some ⟨m, a', h', n', u'⟩)) := by
  refine ⟨?_, fun _ => rfl, fun _ _ _ _ _ _ _ _ _ => rfl⟩
  intro sd
  cases sd <;> simp [GetInternalStepDefinition]

/-- C17: an error that `Run` returns without calling the handler matches exactly one of
the three sentinels under `errors.Is`; it matches `ErrUnmatchedStepArgumentNumber`
exactly when fewer raw arguments than parameters were supplied; and the three sentinels
are pairwise distinct. -/
theorem C17_error_kinds (env : Env) (sd : StepDefinition) (e : GoError)
    (h : Run env sd = .error e) :
    ((errorsIs e .ErrUnmatchedStepArgumentNumber = true ∧ errorsIs e .ErrCannotConvert = false ∧
          errorsIs e .ErrUnsupportedArgumentType = false) ∨
        (errorsIs e .ErrUnmatchedStepArgumentNumber = false ∧ errorsIs e .ErrCannotConvert = true ∧
          errorsIs e .ErrUnsupportedArgumentType = false) ∨
        (errorsIs e .ErrUnmatchedStepArgumentNumber = false ∧ errorsIs e .ErrCannotConvert = false ∧
          errorsIs e .ErrUnsupportedArgumentType = true)) ∧
      (errorsIs e .ErrUnmatchedStepArgumentNumber = true ↔
        sd.Args.length < sd.HandlerValue.In.length) ∧
      (ErrorValue.ErrUnmatchedStepArgumentNumber ≠ .ErrCannotConvert ∧
        ErrorValue.ErrUnmatchedStepArgumentNumber ≠ .ErrUnsupportedArgumentType ∧
        ErrorValue.ErrCannotConvert ≠ .ErrUnsupportedArgumentType) := by
  have hAB : ErrorValue.ErrUnmatchedStepArgumentNumber ≠ .ErrCannotConvert := by decide
  have hAC : ErrorValue.ErrUnmatchedStepArgumentNumber ≠ .ErrUnsupportedArgumentType := by
    decide
  have hBC : ErrorValue.ErrCannotConvert ≠ .ErrUnsupportedArgumentType := by decide
  have hkind : (e.wrapped = .ErrUnmatchedStepArgumentNumber ∧
        sd.Args.length < sd.HandlerValue.In.length) ∨
      (e.wrapped = .ErrCannotConvert ∧ ¬ sd.Args.length < sd.HandlerValue.In.length) ∨
      (e.wrapped = .ErrUnsupportedArgumentType ∧
        ¬ sd.Args.length < sd.HandlerValue.In.length) := by
    by_cases hlt : sd.Args.length < sd.HandlerValue.In.length
    · simp only [Run, hlt, if_true, Outcome.error.injEq] at h
      subst h
      exact Or.inl ⟨rfl, hlt⟩
    · rcases Run_error_wrapped env sd e (Nat.le_of_not_lt hlt) h with hw | hw
      · exact Or.inr (Or.inl ⟨hw, hlt⟩)
      · exact Or.inr (Or.inr ⟨hw, hlt⟩)
  refine ⟨?_, ?_, hAB, hAC, hBC⟩
  · rcases hkind with ⟨hw, -⟩ | ⟨hw, -⟩ | ⟨hw, -⟩
    · exact Or.inl ⟨by simp [errorsIs, hw], by simp [errorsIs, hw, hAB],
        by simp [errorsIs, hw, hAC]⟩
    · exact Or.inr (Or.inl ⟨by simp [errorsIs, hw, hAB.symm], by simp [errorsIs, hw],
        by simp [errorsIs, hw, hBC]⟩)
    · exact Or.inr (Or.inr ⟨by simp [errorsIs, hw, hAC.symm],
        by simp [errorsIs, hw, hBC.symm], by simp [errorsIs, hw]⟩)
  · rcases hkind with ⟨hw, hlt⟩ | ⟨hw, hlt⟩ | ⟨hw, hlt⟩
    · simp [errorsIs, hw, hlt]
    · simp [errorsIs, hw, hlt, hAB.symm]
    · simp [errorsIs, hw, hlt, hAC.symm]

/-- C17 at the error that a handler of two parameters gets for one raw argument. -/
theorem C17_error_kinds_witness :
    errorsIs ⟨"%w: expected %d arguments, matched %d from step",
        .ErrUnmatchedStepArgumentNumber, [.int 2, .int 1]⟩ .ErrUnmatchedStepArgumentNumber = true ∧
      errorsIs ⟨"%w: expected %d arguments, matched %d from step",
        .ErrUnmatchedStepArgumentNumber, [.int 2, .int 1]⟩ .ErrCannotConvert = false :=
  have h := C17_error_kinds env64
    ⟨[.string (ascii "only-one")], handlerOf [.basic .String, .basic .Int]⟩
    ⟨"%w: expected %d arguments, matched %d from step",
      .ErrUnmatchedStepArgumentNumber, [.int 2, .int 1]⟩ (by decide)
  ⟨h.2.1.mpr (by decide), by decide⟩

/-- C18 at a failing input: for the handler `func(n MyInt)` with `type MyInt int` the
text `42` coerces, the value built has type `int` and not the declared type `MyInt`, and
`Run` panics in the call instead of returning. -/
theorem C18_failing_input :
    coerce env64 [.string (ascii "42")] 0 myIntType = .ok (.int 42) ∧
      (Value.int 42).typeOf ≠ myIntType ∧
      Run env64 ⟨[.string (ascii "42")], handlerOf [myIntType]⟩
        = .panic (.callTypeMismatch 0 (.basic .Int) myIntType) := by
  refine ⟨rfl, by decide, by decide⟩

/-- C19: `Run` never panics on an index out of range, whatever the handler signature and
the raw arguments are: the count check returns for every list shorter than the arity,
and the loop reads `Args[i]` only for `i` below the arity. -/
theorem C19_index_in_bounds (env : Env) (sd : StepDefinition) (i n : Nat) :
    Run env sd ≠ .panic (.indexOutOfRange i n) := by
  by_cases hlt : sd.Args.length < sd.HandlerValue.In.length
  · simp [Run, hlt]
  · have hnp := coerceLoop_no_panic env sd.Args sd.HandlerValue.In 0 []
      (by simpa using Nat.le_of_not_lt hlt)
    simp only [Run, hlt, if_false]
    cases hl : coerceLoop env sd.Args 0 sd.HandlerValue.In [] with
    | error a =>
      cases a with
      | err e => simp
      | panic q => exact absurd hl (hnp q)
    | ok values =>
      simp only [Call]
      cases hm : callMismatch 0 sd.HandlerValue.In values with
      | none => simp
      | some p =>
        obtain ⟨j, a, b, rfl⟩ := callMismatch_kind 0 _ _ p hm
        simp

end Godog
